import Mathlib

/-!
Contact form validator (`src/script.js`).

A shallow embedding of the `ContactFormValidator` class: JavaScript strings are
sequences of UTF-16 code units, regular expressions are run by a small
backtracking matcher, and the DOM the class touches is an explicit record that
every method takes and returns.
-/

namespace ContactForm

/-! ## JavaScript strings -/

/-- A JavaScript string, as the sequence of its UTF-16 code units. `length`,
`trim`, `substring` and non-unicode regular expressions all work on code units. -/
abbrev JSString := List Nat

/-- UTF-16 encoding of one Unicode scalar value. -/
def utf16 (c : Char) : List Nat :=
  if c.toNat < 65536 then [c.toNat]
  else [55296 + (c.toNat - 65536) / 1024, 56320 + (c.toNat - 65536) % 1024]

/-- The JavaScript string denoted by a source literal. -/
def js (s : String) : JSString := s.toList.flatMap utf16

/-- The decimal rendering of a non-negative integer, as template literals produce it. -/
def decimal (n : Nat) : JSString := js (toString n)

/-! ## Character classes -/

/-- Class `\d`, i.e. `[0-9]`. -/
def isDigit (u : Nat) : Bool := decide (48 ≤ u) && decide (u ≤ 57)

/-- Class `[a-z]`. -/
def isLower (u : Nat) : Bool := decide (97 ≤ u) && decide (u ≤ 122)

/-- Class `[A-Z]`. -/
def isUpper (u : Nat) : Bool := decide (65 ≤ u) && decide (u ≤ 90)

/-- Class `[a-zA-Z]`. -/
def isLetter (u : Nat) : Bool := isLower u || isUpper u

/-- Class `[a-zA-Z0-9]`. -/
def isAlnum (u : Nat) : Bool := isLetter u || isDigit u

/-- Class `[a-zA-Z0-9-]`. -/
def isAlnumHyphen (u : Nat) : Bool := isAlnum u || u == 45

/-- ECMAScript white space and line terminators: what `trim` strips and what `\s`
matches (TAB, LF, VT, FF, CR, SP, NBSP, U+1680, U+2000..U+200A, U+2028, U+2029,
U+202F, U+205F, U+3000, U+FEFF). -/
def isSpace (u : Nat) : Bool :=
  (decide (9 ≤ u) && decide (u ≤ 13)) || u == 32 || u == 160 || u == 5760 ||
  (decide (8192 ≤ u) && decide (u ≤ 8202)) || u == 8232 || u == 8233 || u == 8239 ||
  u == 8287 || u == 12288 || u == 65279

/-- Class `[a-zA-Z\s'-]` of the name rule. -/
def isNameChar (u : Nat) : Bool := isLetter u || isSpace u || u == 39 || u == 45

/-- Class ``[a-zA-Z0-9.!#$%&'*+/=?^_`{|}~-]`` of the e-mail local part. -/
def isLocalChar (u : Nat) : Bool :=
  isAlnum u || u == 46 || u == 33 || u == 35 || u == 36 || u == 37 || u == 38 ||
  u == 39 || u == 42 || u == 43 || u == 47 || u == 61 || u == 63 || u == 94 ||
  u == 95 || u == 96 || u == 123 || u == 124 || u == 125 || u == 126 || u == 45

/-! ## String methods -/

/-- `String.prototype.trim`: strip white space from both ends. -/
def trim (s : JSString) : JSString :=
  ((s.dropWhile isSpace).reverse.dropWhile isSpace).reverse

/-- `s.replace(/\D/g, '')`: delete every code unit that is not a digit. -/
def stripNonDigits (s : JSString) : JSString := s.filter isDigit

/-- `s.substring(0, n)`. -/
def substring0 (s : JSString) (n : Nat) : JSString := s.take n

/-! ## Regular expressions -/

/-- The regular-expression constructs the source uses. -/
inductive RE where
  | cls (p : Nat → Bool)
  | seq (r s : RE)
  | opt (r : RE)
  | upTo (n : Nat) (r : RE)
  | star (r : RE)
  | plus (r : RE)

/-- A matcher maps a text to the remainders left after each way of matching a
prefix of it, in backtracking priority order. -/
abbrev Matcher := JSString → List JSString

/-- One code unit of a class. -/
def mCls (p : Nat → Bool) : Matcher
  | [] => []
  | c :: t => if p c then [t] else []

/-- Concatenation. -/
def mSeq (f g : Matcher) : Matcher := fun s => (f s).flatMap g

/-- Greedy `?`. -/
def mOpt (f : Matcher) : Matcher := fun s => f s ++ [s]

/-- Greedy `{0,n}`. -/
def mUpTo (f : Matcher) : Nat → Matcher
  | 0, s => [s]
  | n + 1, s => (f s).flatMap (mUpTo f n) ++ [s]

/-- Greedy `*`, iterating only past iterations that consumed input; `fuel`
bounds the number of iterations. -/
def mStarAux (f : Matcher) : Nat → Matcher
  | 0, s => [s]
  | fuel + 1, s =>
    ((f s).filter (fun t => decide (t.length < s.length))).flatMap (mStarAux f fuel) ++ [s]

/-- Greedy `*`: at most `s.length` iterations can consume input. -/
def mStar (f : Matcher) : Matcher := fun s => mStarAux f s.length s

/-- The matcher of a regular expression. -/
def RE.run : RE → Matcher
  | .cls p => mCls p
  | .seq r s => mSeq r.run s.run
  | .opt r => mOpt r.run
  | .upTo n r => mUpTo r.run n
  | .star r => mStar r.run
  | .plus r => mSeq r.run (mStar r.run)

/-- The result of `/^r$/.test(s)`: some way of matching `r` consumes all of `s`. -/
def RE.test (r : RE) (s : JSString) : Bool := (r.run s).any List.isEmpty

/-- The pattern `/^[a-zA-Z\s'-]+$/` without its anchors. -/
def nameRegex : RE := .plus (.cls isNameChar)

/-- The pattern `[a-zA-Z0-9](?:[a-zA-Z0-9-]{0,61}[a-zA-Z0-9])?` of one domain label. -/
def labelRegex : RE :=
  .seq (.cls isAlnum) (.opt (.seq (.upTo 61 (.cls isAlnumHyphen)) (.cls isAlnum)))

/-- The pattern of `emailRegex` without its anchors. -/
def emailRegex : RE :=
  .seq (.plus (.cls isLocalChar))
    (.seq (.cls (fun u => u == 64))
      (.seq labelRegex (.star (.seq (.cls (fun u => u == 46)) labelRegex))))

/-- Method `isValidEmail`. -/
def isValidEmail (email : JSString) : Bool := emailRegex.test email

/-- Method `isValidPhone`. -/
def isValidPhone (phone : JSString) : Bool :=
  let cleaned := stripNonDigits phone
  cleaned.length == 10

/-! ## Phone formatting -/

/-- The capture groups of a pattern `(\d{n₁})(\d{n₂})…` matched at the start of
`s`, with the text after the match; `none` when it does not match there. -/
def matchGroups : List Nat → JSString → Option (List JSString × JSString)
  | [], s => some ([], s)
  | n :: ns, s =>
    if n ≤ s.length ∧ (s.take n).all isDigit = true then
      (matchGroups ns (s.drop n)).map (fun r => (s.take n :: r.1, r.2))
    else none

/-- A piece of a replacement string: a literal code unit or a group reference `$i`. -/
inductive Piece where
  | lit (u : Nat)
  | group (i : Nat)

/-- The replacement string with its group references substituted. -/
def expand (template : List Piece) (groups : List JSString) : JSString :=
  template.flatMap fun
    | .lit u => [u]
    | .group i => groups.getD (i - 1) []

/-- `s.replace(/(\d{n₁})(\d{n₂})…/, template)` for a pattern without the `g`
flag: the leftmost match is replaced, the text around it is kept. -/
def replaceFirst (groups : List Nat) (template : List Piece) : JSString → JSString
  | [] =>
    match matchGroups groups [] with
    | some (gs, rest) => expand template gs ++ rest
    | none => []
  | c :: t =>
    match matchGroups groups (c :: t) with
    | some (gs, rest) => expand template gs ++ rest
    | none => c :: replaceFirst groups template t

/-- The replacement string `'($1) $2-$3'`. -/
def template10 : List Piece :=
  [.lit 40, .group 1, .lit 41, .lit 32, .group 2, .lit 45, .group 3]

/-- The replacement string `'($1) $2'`. -/
def template6 : List Piece := [.lit 40, .group 1, .lit 41, .lit 32, .group 2]

/-- The replacement string `'($1)'`. -/
def template3 : List Piece := [.lit 40, .group 1, .lit 41]

/-- Method `formatPhoneNumber`, from the field's value before the call to its
value after it. -/
def formatPhoneNumber (raw : JSString) : JSString :=
  let value := stripNonDigits raw
  if value.length ≥ 10 then
    replaceFirst [3, 3, 4] template10 (substring0 value 10)
  else if value.length ≥ 6 then
    replaceFirst [3, 3] template6 value
  else if value.length ≥ 3 then
    replaceFirst [3] template3 value
  else value

/-! ## Field validation -/

/-- The keys of `this.fields`. -/
inductive FieldName where
  | name | email | phone | subject | message | newsletter
  deriving DecidableEq, Repr

/-- The `switch` of `validateField` applied to the raw value of a field: the
pair `(isValid, errorMessage)` it leaves in its two local variables. -/
def validate (fieldName : FieldName) (raw : JSString) : Bool × JSString :=
  let value := trim raw
  match fieldName with
  | .name =>
    if value.isEmpty then (false, js "Name is required")
    else if value.length < 2 then (false, js "Name must be at least 2 characters long")
    else if !nameRegex.test value then
      (false, js "Name can only contain letters, spaces, hyphens, and apostrophes")
    else (true, [])
  | .email =>
    if value.isEmpty then (false, js "Email is required")
    else if !isValidEmail value then (false, js "Please enter a valid email address")
    else (true, [])
  | .phone =>
    if !value.isEmpty && !isValidPhone value then
      (false, js "Please enter a valid phone number")
    else (true, [])
  | .subject =>
    if value.isEmpty then (false, js "Subject is required")
    else if value.length < 3 then (false, js "Subject must be at least 3 characters long")
    else (true, [])
  | .message =>
    if value.isEmpty then (false, js "Message is required")
    else if value.length < 10 then
      (false, js "Message must be at least 10 characters long")
    else if value.length > 500 then (false, js "Message cannot exceed 500 characters")
    else (true, [])
  | .newsletter => (true, [])

/-! ## The page -/

/-- The `error` and `success` entries of an input's class list. -/
structure FieldClasses where
  error : Bool
  success : Bool
  deriving DecidableEq, Repr

/-- The `warning` and `error` entries of the counter's class list. -/
structure CounterClasses where
  warning : Bool
  error : Bool
  deriving DecidableEq, Repr

/-- The part of the document the class reads and writes. `banner` is the
`.submission-error` element attached to the form, if any, with its identity
and text; `nextElement` numbers the elements `createElement` returns. For the
newsletter checkbox `value` stands for its state; the class never reads it. -/
structure Dom where
  value : FieldName → JSString
  errorText : FieldName → JSString
  classes : FieldName → FieldClasses
  formVisible : Bool
  successVisible : Bool
  submitDisabled : Bool
  btnTextVisible : Bool
  btnLoadingVisible : Bool
  charCountText : JSString
  charCountClasses : CounterClasses
  banner : Option (Nat × JSString)
  nextElement : Nat

/-- Whether `this.errors[fieldName]` exists. -/
def hasErrorElement : FieldName → Bool
  | .newsletter => false
  | _ => true

/-- Method `showFieldError`. -/
def showFieldError (fieldName : FieldName) (message : JSString) (d : Dom) : Dom :=
  if hasErrorElement fieldName then
    { d with errorText := Function.update d.errorText fieldName message }
  else d

/-- Method `updateFieldStyle`, with `isValid` one of `true`, `false`, `null`. -/
def updateFieldStyle (field : FieldName) (isValid : Option Bool) (d : Dom) : Dom :=
  let removed : FieldClasses := { error := false, success := false }
  let added : FieldClasses :=
    match isValid with
    | some true => { removed with success := true }
    | some false => { removed with error := true }
    | none => removed
  { d with classes := Function.update d.classes field added }

/-- Method `clearFieldError`. -/
def clearFieldError (fieldName : FieldName) (d : Dom) : Dom :=
  let d1 :=
    if hasErrorElement fieldName then
      { d with errorText := Function.update d.errorText fieldName [] }
    else d
  updateFieldStyle fieldName none d1

/-- Method `validateField`: the returned `isValid` and the page afterwards. -/
def validateField (fieldName : FieldName) (d : Dom) : Bool × Dom :=
  let r := validate fieldName (d.value fieldName)
  (r.1, updateFieldStyle fieldName (some r.1) (showFieldError fieldName r.2 d))

/-- The array `requiredFields` of `validateAllFields`. -/
def requiredFields : List FieldName := [.name, .email, .subject, .message]

/-- One turn of the `forEach` over `requiredFields`, on `(isFormValid, page)`. -/
def validateRequired (acc : Bool × Dom) (fieldName : FieldName) : Bool × Dom :=
  let r := validateField fieldName acc.2
  (if !r.1 then false else acc.1, r.2)

/-- Method `validateAllFields`: the returned `isFormValid` and the page afterwards. -/
def validateAllFields (d : Dom) : Bool × Dom :=
  let acc := requiredFields.foldl validateRequired (true, d)
  if !(trim (acc.2.value .phone)).isEmpty then
    let r := validateField .phone acc.2
    (if !r.1 then false else acc.1, r.2)
  else acc

/-- The listener `setupCharacterCounter` attaches to the message field. The
threshold `maxLength * 0.8` is the double `500 * 0.8`, which rounds to exactly
`400`. -/
def updateCharCounter (d : Dom) : Dom :=
  let currentLength := (d.value .message).length
  let maxLength := 500
  let removed : CounterClasses := { warning := false, error := false }
  let c1 := if currentLength > 400 then { removed with warning := true } else removed
  let c2 := if currentLength > maxLength then { c1 with error := true } else c1
  { d with
    charCountText := decimal currentLength ++ js "/" ++ decimal maxLength ++ js " characters"
    charCountClasses := c2 }

/-- Method `setLoadingState`. -/
def setLoadingState (isLoading : Bool) (d : Dom) : Dom :=
  { d with
    submitDisabled := isLoading
    btnTextVisible := !isLoading
    btnLoadingVisible := isLoading }

/-- Method `resetForm`. `form.reset()` restores the default values of the
controls, which are empty. -/
def resetForm (d : Dom) : Dom :=
  let d1 := { d with value := fun _ => [], formVisible := true, successVisible := false }
  let d2 :=
    [FieldName.name, .email, .phone, .subject, .message, .newsletter].foldl
      (fun acc f => if f ≠ FieldName.newsletter then clearFieldError f acc else acc) d1
  { d2 with
    charCountText := js "0/500 characters"
    charCountClasses := { warning := false, error := false } }

/-! ## Events and timers -/

/-- What a pending `setTimeout` callback does: settle the promise of
`simulateFormSubmission` (which resumes `handleSubmit`), call `resetForm`, or
remove the banner element `el` its closure captured. -/
inductive TimerAction where
  | settle
  | resetForm
  | removeBanner (el : Nat)
  deriving DecidableEq, Repr

/-- A pending timer: the time it is due, in milliseconds, and its callback. -/
structure Timer where
  due : Nat
  action : TimerAction
  deriving DecidableEq, Repr

/-- The page, the clock and the pending timers in creation order. -/
structure Sys where
  dom : Dom
  now : Nat
  timers : List Timer

/-- `setTimeout(action, delay)`. -/
def setTimeout (action : TimerAction) (delay : Nat) (s : Sys) : Sys :=
  { s with timers := s.timers ++ [{ due := s.now + delay, action := action }] }

/-- Method `showSubmissionError`: reuse the attached banner or create and
attach one, set its text, and schedule its removal. -/
def showSubmissionError (message : JSString) (s : Sys) : Sys :=
  match s.dom.banner with
  | some (el, _) =>
    setTimeout (.removeBanner el) 5000
      { s with dom := { s.dom with banner := some (el, message) } }
  | none =>
    let el := s.dom.nextElement
    setTimeout (.removeBanner el) 5000
      { s with dom := { s.dom with banner := some (el, message), nextElement := el + 1 } }

/-- The callback `showSubmissionError` schedules: remove the captured element
if it is still attached. -/
def removeBanner (el : Nat) (d : Dom) : Dom :=
  match d.banner with
  | some (el1, _) => if el1 = el then { d with banner := none } else d
  | none => d

/-- Method `showSuccess`. -/
def showSuccess (s : Sys) : Sys :=
  setTimeout .resetForm 5000
    { s with dom := { s.dom with formVisible := false, successVisible := true } }

/-- Method `handleSubmit` up to its `await`: either it returns after the
validation error, or it leaves the promise's timer pending. -/
def handleSubmit (s : Sys) : Sys :=
  let d1 := { s.dom with successVisible := false }
  let r := validateAllFields d1
  if !r.1 then
    showSubmissionError (js "Please correct the errors above before submitting.")
      { s with dom := r.2 }
  else
    setTimeout .settle 2000 { s with dom := setLoadingState true r.2 }

/-- Method `handleSubmit` from its `await` on, run when the promise settles;
`resolved` is the outcome `Math.random() > 0.1` of `simulateFormSubmission`. -/
def resumeSubmit (resolved : Bool) (s : Sys) : Sys :=
  let s1 :=
    if resolved then showSuccess s
    else showSubmissionError
      (js "There was an error sending your message. Please try again.") s
  { s1 with dom := setLoadingState false s1.dom }

/-- Run one timer callback. -/
def runTimer (resolved : Bool) (action : TimerAction) (s : Sys) : Sys :=
  match action with
  | .settle => resumeSubmit resolved s
  | .resetForm => { s with dom := resetForm s.dom }
  | .removeBanner el => { s with dom := removeBanner el s.dom }

/-- Run the given due timers in order, the `i`-th one with random outcome `rnd i`. -/
def runTimers (rnd : Nat → Bool) : Nat → List Timer → Sys → Sys
  | _, [], s => s
  | i, t :: ts, s => runTimers rnd (i + 1) ts (runTimer (rnd i) t.action s)

/-- What the page and the environment can do to the validator: the user
changes a field to `v` (`input`), leaves a field (`blur`), submits the form,
or one millisecond passes (`tick`), after which the timers now due run. -/
inductive Event where
  | input (f : FieldName) (v : JSString)
  | blur (f : FieldName)
  | submit
  | tick (rnd : Nat → Bool)

/-- The `input` listeners of a field, in registration order. -/
def onInput (f : FieldName) (v : JSString) (d : Dom) : Dom :=
  let d0 := { d with value := Function.update d.value f v }
  match f with
  | .newsletter => d0
  | .phone =>
    let d1 := clearFieldError .phone d0
    { d1 with value := Function.update d1.value .phone (formatPhoneNumber (d1.value .phone)) }
  | .message => updateCharCounter (clearFieldError .message d0)
  | _ => clearFieldError f d0

/-- The `blur` listener of a field. -/
def onBlur (f : FieldName) (d : Dom) : Dom :=
  match f with
  | .newsletter => d
  | _ => (validateField f d).2

/-- The effect of one event. -/
def step (s : Sys) : Event → Sys
  | .input f v => { s with dom := onInput f v s.dom }
  | .blur f => { s with dom := onBlur f s.dom }
  | .submit => handleSubmit s
  | .tick rnd =>
    let now := s.now + 1
    let due := s.timers.filter (fun t => decide (t.due ≤ now))
    let later := s.timers.filter (fun t => !decide (t.due ≤ now))
    runTimers rnd 0 due { s with now := now, timers := later }

/-- The effect of a sequence of events. -/
def run (s : Sys) (events : List Event) : Sys := events.foldl step s

/-- Modelled from the spec: the page as loaded, which the HTML (not part of the
sources) determines: every field empty and unstyled, the form visible, the
success panel hidden, the submit control enabled with its normal label. -/
def initialDom : Dom where
  value := fun _ => []
  errorText := fun _ => []
  classes := fun _ => { error := false, success := false }
  formVisible := true
  successVisible := false
  submitDisabled := false
  btnTextVisible := true
  btnLoadingVisible := false
  charCountText := js "0/500 characters"
  charCountClasses := { warning := false, error := false }
  banner := none
  nextElement := 0

/-- The system when the validator has been constructed. -/
def initial : Sys := { dom := initialDom, now := 0, timers := [] }

/-- The submission status `Success` of the spec: the form hidden and the
success panel shown. -/
def isSuccess (d : Dom) : Prop := d.formVisible = false ∧ d.successVisible = true

/-! ## The address grammar of the specification -/

/-- A domain label: 1 to 63 characters drawn from letters, digits and `-`,
starting and ending with a letter or digit. -/
def IsLabel (l : JSString) : Prop :=
  1 ≤ l.length ∧ l.length ≤ 63 ∧ (∀ c ∈ l, isAlnumHyphen c = true) ∧
  (∃ c, l.head? = some c ∧ isAlnum c = true) ∧
  (∃ c, l.getLast? = some c ∧ isAlnum c = true)

/-- A domain: one or more labels joined by single dots. -/
def IsDomain (d : JSString) : Prop :=
  ∃ labels : List JSString, labels ≠ [] ∧ (∀ l ∈ labels, IsLabel l) ∧
    d = [46].intercalate labels

/-- An address: a non-empty local part over the local-part characters, `@`,
and a domain. -/
def IsAddress (x : JSString) : Prop :=
  ∃ L D : JSString, x = L ++ 64 :: D ∧ L ≠ [] ∧ (∀ c ∈ L, isLocalChar c = true) ∧
    IsDomain D

/-- A matcher recognises a language when its remainders are exactly what the
prefixes in the language leave behind. -/
def Recognizes (f : Matcher) (L : JSString → Prop) : Prop :=
  ∀ s t, t ∈ f s ↔ ∃ w, s = w ++ t ∧ L w

/-- Some submit event of the trace was handled, 2000 ms before time `T`, on a
page for which `validateAllFields` returned true. -/
def ValidSubmitAt (events : List Event) (T : Nat) : Prop :=
  ∃ pre post, events = pre ++ Event.submit :: post ∧
    (validateAllFields (run initial pre).dom).1 = true ∧ (run initial pre).now + 2000 = T

/-- The test data of `FormTestUtils.fillValidData`, typed in field by field. -/
def fillValidData : List Event :=
  [.input .name (js "John Doe"), .input .email (js "john.doe@example.com"),
   .input .phone (js "(555) 123-4567"), .input .subject (js "Test Subject"),
   .input .message (js "This is a test message with enough characters to pass validation.")]

/-- `FormTestUtils.fillValidData`: the values are assigned to the controls
directly, without any event. -/
def fillValidDataDom (d : Dom) : Dom :=
  { d with value := fun f =>
      match f with
      | .name => js "John Doe"
      | .email => js "john.doe@example.com"
      | .phone => js "(555) 123-4567"
      | .subject => js "Test Subject"
      | .message => js "This is a test message with enough characters to pass validation."
      | .newsletter => d.value .newsletter }

/-- `FormTestUtils.fillInvalidData`: the values are assigned to the controls
directly, without any event. -/
def fillInvalidDataDom (d : Dom) : Dom :=
  { d with value := fun f =>
      match f with
      | .name => js "J"
      | .email => js "invalid-email"
      | .phone => js "123"
      | .subject => js "Hi"
      | .message => js "Short"
      | .newsletter => d.value .newsletter }

/-- The five fields that have an error element. -/
def validatedFields : List FieldName := [.name, .email, .phone, .subject, .message]

/-- A page whose phone field is empty but still shows the error of an earlier
validation: the phone of `fillInvalidData` was validated on blur and the value
was then emptied without an input event. -/
def stalePhoneError : Dom :=
  let d := (validateField .phone (fillInvalidDataDom initialDom)).2
  { d with value := Function.update d.value .phone [] }

/-- The number of submission calls pending: the settle timers not yet run. -/
def pendingSubmissions (s : Sys) : Nat :=
  s.timers.countP (fun t => t.action == .settle)

/-- The loading state of the submit control: disabled, with the loading
indicator shown in place of the label. -/
def isLoading (d : Dom) : Prop :=
  d.submitDisabled = true ∧ d.btnLoadingVisible = true ∧ d.btnTextVisible = false

/-- Whether every submit event of the trace arrives while the submit control is
enabled, as the browser only lets an enabled control submit the form. -/
def submitsEnabled : Sys → List Event → Bool
  | _, [] => true
  | s, e :: es =>
    (match e with
      | .submit => !s.dom.submitDisabled
      | _ => true) && submitsEnabled (step s e) es

/-- The submit control tells whether a submission call is pending: one call
when it is disabled, none when it is enabled, with the two labels following
the control. -/
def SubmitInv (s : Sys) : Prop :=
  pendingSubmissions s = (if s.dom.submitDisabled = true then 1 else 0) ∧
  s.dom.btnLoadingVisible = s.dom.submitDisabled ∧
  s.dom.btnTextVisible = !s.dom.submitDisabled

/-- A clock tick; no promise settles in the traces that use it. -/
def tick : Event := .tick fun _ => true

/-- The empty form is submitted at time 0 and again at time 3000. -/
def submitTwice : List Event :=
  Event.submit :: (List.replicate 3000 tick ++ [Event.submit])

/-- The number of pending submission calls that settle at time `T`. -/
def settleDueAt (T : Nat) (s : Sys) : Nat :=
  s.timers.countP (fun t => t.action == .settle && t.due == T)

/-- The number of submit events of the trace, run from `s`, that were handled
at time `T - 2000` on a page for which `validateAllFields` returned true. -/
def validSubmitsAt (T : Nat) : Sys → List Event → Nat
  | _, [] => 0
  | s, e :: es =>
    (match e with
      | .submit => if (validateAllFields s.dom).1 = true ∧ s.now + 2000 = T then 1 else 0
      | _ => 0) + validSubmitsAt T (step s e) es

/-- The valid test data, a submit, and 2000 ms of clock. -/
def successTrace : List Event :=
  fillValidData ++ Event.submit :: List.replicate 2000 tick

/-! ## The matcher is correct -/

theorem Recognizes.congr {f : Matcher} {L M : JSString → Prop} (hf : Recognizes f L)
    (h : ∀ w, L w ↔ M w) : Recognizes f M := by
  intro s t
  rw [hf s t]
  constructor
  · rintro ⟨w, hw, hl⟩
    exact ⟨w, hw, (h w).1 hl⟩
  · rintro ⟨w, hw, hl⟩
    exact ⟨w, hw, (h w).2 hl⟩

theorem recognizes_cls (p : Nat → Bool) :
    Recognizes (mCls p) (fun w => ∃ c, w = [c] ∧ p c = true) := by
  intro s t
  constructor
  · intro h
    cases s with
    | nil => simp [mCls] at h
    | cons c r =>
      by_cases hp : p c = true
      · simp [mCls, hp] at h
        exact ⟨[c], by simp [h], c, rfl, hp⟩
      · simp [mCls, hp] at h
  · rintro ⟨w, rfl, c, rfl, hp⟩
    simp [mCls, hp]

theorem recognizes_seq {f g : Matcher} {L M : JSString → Prop} (hf : Recognizes f L)
    (hg : Recognizes g M) :
    Recognizes (mSeq f g) (fun w => ∃ u v, w = u ++ v ∧ L u ∧ M v) := by
  intro s t
  simp only [mSeq, List.mem_flatMap]
  constructor
  · rintro ⟨m, hm, ht⟩
    obtain ⟨u, rfl, hu⟩ := (hf s m).1 hm
    obtain ⟨v, rfl, hv⟩ := (hg m t).1 ht
    exact ⟨u ++ v, by simp, u, v, rfl, hu, hv⟩
  · rintro ⟨w, rfl, u, v, rfl, hu, hv⟩
    exact ⟨v ++ t, (hf _ _).2 ⟨u, by simp, hu⟩, (hg _ _).2 ⟨v, rfl, hv⟩⟩

theorem recognizes_opt {f : Matcher} {L : JSString → Prop} (hf : Recognizes f L) :
    Recognizes (mOpt f) (fun w => L w ∨ w = []) := by
  intro s t
  simp only [mOpt, List.mem_append, List.mem_singleton]
  constructor
  · rintro (h | rfl)
    · obtain ⟨w, rfl, hw⟩ := (hf s t).1 h
      exact ⟨w, rfl, Or.inl hw⟩
    · exact ⟨[], rfl, Or.inr rfl⟩
  · rintro ⟨w, rfl, hw | rfl⟩
    · exact Or.inl ((hf _ _).2 ⟨w, rfl, hw⟩)
    · exact Or.inr rfl

theorem recognizes_upTo_cls (p : Nat → Bool) (n : Nat) :
    Recognizes (mUpTo (mCls p) n) (fun w => w.length ≤ n ∧ ∀ c ∈ w, p c = true) := by
  induction n with
  | zero =>
    intro s t
    simp only [mUpTo, List.mem_singleton]
    constructor
    · rintro rfl
      exact ⟨[], rfl, by simp, by simp⟩
    · rintro ⟨w, rfl, hw, -⟩
      have : w = [] := List.length_eq_zero.1 (Nat.le_zero.1 hw)
      simp [this]
  | succ n ih =>
    intro s t
    simp only [mUpTo, List.mem_append, List.mem_flatMap, List.mem_singleton]
    constructor
    · rintro (⟨m, hm, ht⟩ | rfl)
      · obtain ⟨u, rfl, c, rfl, hc⟩ := (recognizes_cls p s m).1 hm
        obtain ⟨v, rfl, hv, hall⟩ := (ih m t).1 ht
        refine ⟨c :: v, by simp, by simpa using hv, ?_⟩
        intro d hd
        rcases List.mem_cons.1 hd with rfl | hd
        · exact hc
        · exact hall d hd
      · exact ⟨[], rfl, by simp, by simp⟩
    · rintro ⟨w, rfl, hw, hall⟩
      cases w with
      | nil => exact Or.inr rfl
      | cons c v =>
        left
        refine ⟨v ++ t, (recognizes_cls p _ _).2 ⟨[c], rfl, c, rfl, hall c (by simp)⟩, ?_⟩
        exact (ih _ _).2 ⟨v, rfl, by simpa using hw, fun d hd => hall d (by simp [hd])⟩

theorem mStarAux_sound {f : Matcher} {L : JSString → Prop} (hf : Recognizes f L)
    (fuel : Nat) : ∀ s t, t ∈ mStarAux f fuel s →
      ∃ ws : List JSString, s = ws.flatten ++ t ∧ ∀ x ∈ ws, L x := by
  induction fuel with
  | zero =>
    intro s t h
    simp only [mStarAux, List.mem_singleton] at h
    exact ⟨[], by simp [h], by simp⟩
  | succ fuel ih =>
    intro s t h
    simp only [mStarAux, List.mem_append, List.mem_flatMap, List.mem_filter,
      List.mem_singleton] at h
    rcases h with ⟨m, ⟨hm, -⟩, ht⟩ | rfl
    · obtain ⟨u, rfl, hu⟩ := (hf s m).1 hm
      obtain ⟨ws, rfl, hws⟩ := ih m t ht
      refine ⟨u :: ws, by simp, ?_⟩
      intro x hx
      rcases List.mem_cons.1 hx with rfl | hx
      · exact hu
      · exact hws x hx
    · exact ⟨[], by simp, by simp⟩

theorem mStarAux_self (f : Matcher) (fuel : Nat) (s : JSString) : s ∈ mStarAux f fuel s := by
  cases fuel <;> simp [mStarAux]

theorem mStarAux_complete {f : Matcher} {L : JSString → Prop} (hf : Recognizes f L)
    (hne : ∀ w, L w → w ≠ []) (ws : List JSString) :
    (∀ x ∈ ws, L x) → ∀ fuel t, (ws.flatten ++ t).length ≤ fuel →
      t ∈ mStarAux f fuel (ws.flatten ++ t) := by
  induction ws with
  | nil =>
    intro _ fuel t _
    simpa using mStarAux_self f fuel t
  | cons u ws ih =>
    intro hall fuel t hlen
    have hu : L u := hall u (by simp)
    have hupos : 0 < u.length := List.length_pos.2 (hne u hu)
    have hsplit : (u :: ws).flatten ++ t = u ++ (ws.flatten ++ t) := by simp
    rw [hsplit, List.length_append] at hlen
    rw [hsplit]
    cases fuel with
    | zero => omega
    | succ fuel =>
      simp only [mStarAux, List.mem_append, List.mem_flatMap, List.mem_filter,
        List.mem_singleton]
      left
      refine ⟨ws.flatten ++ t, ⟨(hf _ _).2 ⟨u, rfl, hu⟩, ?_⟩, ?_⟩
      · simp only [List.length_append, decide_eq_true_eq]
        omega
      · apply ih (fun x hx => hall x (by simp [hx]))
        omega

theorem recognizes_star {f : Matcher} {L : JSString → Prop} (hf : Recognizes f L)
    (hne : ∀ w, L w → w ≠ []) :
    Recognizes (mStar f) (fun w => ∃ ws : List JSString, w = ws.flatten ∧ ∀ x ∈ ws, L x) := by
  intro s t
  constructor
  · intro h
    obtain ⟨ws, hs, hws⟩ := mStarAux_sound hf _ s t h
    exact ⟨ws.flatten, hs, ws, rfl, hws⟩
  · rintro ⟨w, rfl, ws, rfl, hws⟩
    exact mStarAux_complete hf hne ws hws _ t (le_refl _)

/-! ## The languages of the source's patterns -/

theorem flatten_map_singleton (v : JSString) : (v.map fun c => [c]).flatten = v := by
  induction v with
  | nil => rfl
  | cons c v ih => simp [ih]

theorem recognizes_plus_cls (p : Nat → Bool) :
    Recognizes (RE.plus (.cls p)).run (fun w => w ≠ [] ∧ ∀ c ∈ w, p c = true) := by
  have hne : ∀ w : JSString, (∃ c, w = [c] ∧ p c = true) → w ≠ [] := by
    rintro w ⟨c, rfl, -⟩
    simp
  refine (recognizes_seq (recognizes_cls p) (recognizes_star (recognizes_cls p) hne)).congr ?_
  intro w
  constructor
  · rintro ⟨u, v, rfl, ⟨c, rfl, hc⟩, ws, rfl, hws⟩
    refine ⟨by simp, ?_⟩
    intro d hd
    rcases List.mem_append.1 hd with hd | hd
    · rw [List.mem_singleton.1 hd]
      exact hc
    · obtain ⟨x, hx, hdx⟩ := List.mem_flatten.1 hd
      obtain ⟨e, rfl, he⟩ := hws x hx
      rw [List.mem_singleton.1 hdx]
      exact he
  · rintro ⟨hw, hall⟩
    cases w with
    | nil => exact absurd rfl hw
    | cons c v =>
      refine ⟨[c], v, rfl, ⟨c, rfl, hall c (by simp)⟩, v.map (fun c => [c]),
        (flatten_map_singleton v).symm, ?_⟩
      intro x hx
      obtain ⟨d, hd, rfl⟩ := List.mem_map.1 hx
      exact ⟨d, rfl, hall d (by simp [hd])⟩

theorem isAlnumHyphen_of_isAlnum {c : Nat} (h : isAlnum c = true) :
    isAlnumHyphen c = true := by
  simp [isAlnumHyphen, h]

theorem recognizes_label : Recognizes labelRegex.run IsLabel := by
  refine (recognizes_seq (recognizes_cls isAlnum)
    (recognizes_opt (recognizes_seq (recognizes_upTo_cls isAlnumHyphen 61)
      (recognizes_cls isAlnum)))).congr ?_
  intro w
  constructor
  · rintro ⟨u, v, rfl, ⟨c, rfl, hc⟩, ⟨a, b, rfl, ⟨ha, hall⟩, d, rfl, hd⟩ | rfl⟩
    · refine ⟨by simp, by simp; omega, ?_, ⟨c, by simp, hc⟩, ⟨d, ?_, hd⟩⟩
      · intro e he
        simp only [List.singleton_append, List.mem_cons, List.mem_append,
          List.not_mem_nil, or_false] at he
        rcases he with rfl | he | rfl
        · exact isAlnumHyphen_of_isAlnum hc
        · exact hall e he
        · exact isAlnumHyphen_of_isAlnum hd
      · rw [show [c] ++ (a ++ [d]) = (c :: a) ++ [d] by simp]
        exact List.getLast?_concat _
    · refine ⟨by simp, by simp, ?_, ⟨c, by simp, hc⟩, ⟨c, by simp, hc⟩⟩
      intro e he
      simp only [List.append_nil, List.mem_singleton] at he
      rw [he]
      exact isAlnumHyphen_of_isAlnum hc
  · rintro ⟨h1, h63, hall, ⟨c, hc, hca⟩, ⟨d, hd, hda⟩⟩
    cases w with
    | nil => simp at h1
    | cons c0 v =>
      simp only [List.head?_cons, Option.some.injEq] at hc
      subst hc
      refine ⟨[c0], v, rfl, ⟨c0, rfl, hca⟩, ?_⟩
      rcases List.eq_nil_or_concat v with rfl | ⟨a, e, hv⟩
      · exact Or.inr rfl
      · left
        rw [List.concat_eq_append] at hv
        subst hv
        have hlast : (c0 :: (a ++ [e])).getLast? = some e := by
          rw [show c0 :: (a ++ [e]) = (c0 :: a) ++ [e] by simp]
          exact List.getLast?_concat _
        rw [hlast] at hd
        simp only [Option.some.injEq] at hd
        subst hd
        refine ⟨a, [e], rfl, ⟨?_, ?_⟩, e, rfl, hda⟩
        · simp at h63
          omega
        · intro x hx
          exact hall x (by simp [hx])

theorem intercalate_dot_cons (u : JSString) (ls : List JSString) :
    [46].intercalate (u :: ls) = u ++ (ls.map fun l => 46 :: l).flatten := by
  induction ls generalizing u with
  | nil => simp [List.intercalate, List.intersperse]
  | cons l ls ih =>
    have h := ih l
    simp only [List.intercalate] at h ⊢
    simp [List.intersperse, h]

theorem recognizes_domain :
    Recognizes (RE.seq labelRegex (.star (.seq (.cls (fun u => u == 46)) labelRegex))).run
      IsDomain := by
  have hdot := recognizes_seq (recognizes_cls (fun u => u == 46)) recognizes_label
  have hne : ∀ w : JSString,
      (∃ u v, w = u ++ v ∧ (∃ c, u = [c] ∧ (c == 46) = true) ∧ IsLabel v) → w ≠ [] := by
    rintro w ⟨u, v, rfl, ⟨c, rfl, -⟩, -⟩
    simp
  refine (recognizes_seq recognizes_label (recognizes_star hdot hne)).congr ?_
  intro w
  constructor
  · rintro ⟨u, v, rfl, hu, ws, rfl, hws⟩
    have hbs : ∃ bs : List JSString, ws = bs.map (fun l => 46 :: l) ∧ ∀ b ∈ bs, IsLabel b := by
      clear hu
      induction ws with
      | nil => exact ⟨[], rfl, by simp⟩
      | cons x ws ih =>
        obtain ⟨bs, hbs, hall⟩ := ih (fun y hy => hws y (by simp [hy]))
        obtain ⟨a, b, rfl, ⟨c, rfl, hc⟩, hb⟩ := hws x (by simp)
        have hc46 : c = 46 := by simpa using hc
        refine ⟨b :: bs, by simp [hbs, hc46], ?_⟩
        intro y hy
        rcases List.mem_cons.1 hy with rfl | hy
        · exact hb
        · exact hall y hy
    obtain ⟨bs, rfl, hall⟩ := hbs
    refine ⟨u :: bs, by simp, ?_, (intercalate_dot_cons u bs).symm⟩
    intro y hy
    rcases List.mem_cons.1 hy with rfl | hy
    · exact hu
    · exact hall y hy
  · rintro ⟨labels, hne, hall, rfl⟩
    cases labels with
    | nil => exact absurd rfl hne
    | cons u bs =>
      refine ⟨u, _, intercalate_dot_cons u bs, hall u (by simp), bs.map (fun l => 46 :: l),
        rfl, ?_⟩
      intro x hx
      obtain ⟨b, hb, rfl⟩ := List.mem_map.1 hx
      exact ⟨[46], b, rfl, ⟨46, rfl, rfl⟩, hall b (by simp [hb])⟩

theorem recognizes_email : Recognizes emailRegex.run IsAddress := by
  refine (recognizes_seq (recognizes_plus_cls isLocalChar)
    (recognizes_seq (recognizes_cls (fun u => u == 64)) recognizes_domain)).congr ?_
  intro w
  constructor
  · rintro ⟨L, v, rfl, ⟨hL, hall⟩, a, D, rfl, ⟨c, rfl, hc⟩, hD⟩
    have hc64 : c = 64 := by simpa using hc
    exact ⟨L, D, by simp [hc64], hL, hall, hD⟩
  · rintro ⟨L, D, rfl, hL, hall, hD⟩
    exact ⟨L, 64 :: D, rfl, ⟨hL, hall⟩, [64], D, rfl, ⟨64, rfl, rfl⟩, hD⟩

theorem test_iff {r : RE} {L : JSString → Prop} (h : Recognizes r.run L) (s : JSString) :
    r.test s = true ↔ L s := by
  simp only [RE.test, List.any_eq_true, List.isEmpty_iff]
  constructor
  · rintro ⟨t, ht, rfl⟩
    obtain ⟨w, rfl, hw⟩ := (h s []).1 ht
    simpa using hw
  · intro hs
    exact ⟨[], (h s []).2 ⟨s, by simp, hs⟩, rfl⟩

theorem isValidEmail_iff (x : JSString) : isValidEmail x = true ↔ IsAddress x :=
  test_iff recognizes_email x

theorem intercalate_dot_cons_cons (u b : JSString) (bs : List JSString) :
    [46].intercalate (u :: b :: bs) = u ++ 46 :: [46].intercalate (b :: bs) := by
  rw [intercalate_dot_cons, intercalate_dot_cons]
  simp

theorem IsLabel.ne_nil {l : JSString} (h : IsLabel l) : l ≠ [] := by
  intro hl
  have := h.1
  simp [hl] at this

theorem IsLabel.no_dot_at {l : JSString} (h : IsLabel l) :
    ∀ c ∈ l, c ≠ 46 ∧ c ≠ 64 := by
  intro c hc
  have := h.2.2.1 c hc
  constructor <;> rintro rfl <;> revert this <;> decide

/-- The shape of a dot-joined list of labels: no `@`, no two dots in a row, and
it does not start with a dot. -/
theorem domain_shape (bs : List JSString) : ∀ u : JSString,
    (∀ l ∈ u :: bs, IsLabel l) →
      (∀ c ∈ [46].intercalate (u :: bs), c ≠ 64) ∧
      List.Chain' (fun a b : Nat => ¬(a = 46 ∧ b = 46)) ([46].intercalate (u :: bs)) ∧
      (∀ c ∈ ([46].intercalate (u :: bs)).head?, c ≠ 46) := by
  induction bs with
  | nil =>
    intro u hall
    have hu : IsLabel u := hall u (by simp)
    have huD : [46].intercalate [u] = u := by simp [intercalate_dot_cons]
    rw [huD]
    refine ⟨fun c hc => (hu.no_dot_at c hc).2, ?_, ?_⟩
    · apply List.Pairwise.chain'
      apply List.pairwise_of_forall_mem_list
      intro a ha b _ hab
      exact (hu.no_dot_at a ha).1 hab.1
    · intro c hc
      exact (hu.no_dot_at c (List.mem_of_mem_head? hc)).1
  | cons b bs ih =>
    intro u hall
    have hu : IsLabel u := hall u (by simp)
    obtain ⟨h64, hchain, hhead⟩ := ih b (fun l hl => hall l (by simp [hl]))
    rw [intercalate_dot_cons_cons]
    refine ⟨?_, ?_, ?_⟩
    · intro c hc
      simp only [List.mem_append, List.mem_cons] at hc
      rcases hc with hc | rfl | hc
      · exact (hu.no_dot_at c hc).2
      · decide
      · exact h64 c hc
    · rw [List.chain'_append]
      refine ⟨?_, ?_, ?_⟩
      · apply List.Pairwise.chain'
        apply List.pairwise_of_forall_mem_list
        intro a ha b _ hab
        exact (hu.no_dot_at a ha).1 hab.1
      · rw [List.chain'_cons']
        exact ⟨fun y hy hy2 => hhead y hy hy2.2, hchain⟩
      · intro x hx y _ hxy
        exact (hu.no_dot_at x (List.mem_of_mem_getLast? hx)).1 hxy.1
    · intro c hc
      cases u with
      | nil => exact absurd rfl hu.ne_nil
      | cons c0 u =>
        simp only [List.cons_append, List.head?_cons, Option.mem_def,
          Option.some.injEq] at hc
        subst hc
        exact (hu.no_dot_at c0 (by simp)).1

theorem IsDomain.shape {D : JSString} (h : IsDomain D) :
    (∀ c ∈ D, c ≠ 64) ∧ List.Chain' (fun a b : Nat => ¬(a = 46 ∧ b = 46)) D := by
  obtain ⟨labels, hne, hall, rfl⟩ := h
  cases labels with
  | nil => exact absurd rfl hne
  | cons u bs =>
    have := domain_shape bs u hall
    exact ⟨this.1, this.2.1⟩

/-- An address splits at its only `@`. -/
theorem IsAddress.split {a b : JSString} (h : IsAddress (a ++ 64 :: b)) :
    a ≠ [] ∧ (∀ c ∈ a, isLocalChar c = true) ∧ IsDomain b := by
  obtain ⟨L, D, hx, hL, hall, hD⟩ := h
  have hL64 : (64 : Nat) ∉ L := fun h64 => by
    have := hall 64 h64
    revert this
    decide
  have hD64 : (64 : Nat) ∉ D := fun h64 => hD.shape.1 64 h64 rfl
  rcases List.append_eq_append_iff.1 hx with ⟨m, hm, hb⟩ | ⟨m, hm, hb⟩
  · cases m with
    | nil =>
      simp only [List.nil_append, List.cons.injEq, true_and] at hb
      simp only [List.append_nil] at hm
      subst hm hb
      exact ⟨hL, hall, hD⟩
    | cons c m =>
      simp only [List.cons_append, List.cons.injEq] at hb
      exact absurd (by rw [hm, ← hb.1]; simp) hL64
  · cases m with
    | nil =>
      simp only [List.nil_append, List.cons.injEq, true_and] at hb
      simp only [List.append_nil] at hm
      subst hm hb
      exact ⟨hL, hall, hD⟩
    | cons c m =>
      simp only [List.cons_append, List.cons.injEq] at hb
      exact absurd (by rw [hb.2]; simp) hD64

/-! ## Field validators -/

theorem isEmpty_eq_false_iff_ne_nil (t : JSString) : t.isEmpty = false ↔ t ≠ [] := by
  cases t <;> simp

theorem validateField_fst (f : FieldName) (d : Dom) :
    (validateField f d).1 = (validate f (d.value f)).1 := rfl

theorem validateField_value (f : FieldName) (d : Dom) :
    (validateField f d).2.value = d.value := by
  unfold validateField updateFieldStyle showFieldError
  split <;> rfl

theorem validateField_errorText (f : FieldName) (d : Dom) (hf : f ≠ .newsletter) :
    (validateField f d).2.errorText f = (validate f (d.value f)).2 := by
  cases f <;> simp [validateField, updateFieldStyle, showFieldError, hasErrorElement] at hf ⊢

/-- C1: `isValidEmail` accepts exactly the addresses of the grammar (a
non-empty local part over the local-part characters, `@`, and one or more
labels joined by single dots); it rejects every text without `@` and every
text with two consecutive dots after an `@`; and `validateField('email')` is
valid exactly when the trimmed value is non-empty and passes `isValidEmail`. -/
theorem isValidEmail_grammar :
    (∀ x : JSString, isValidEmail x = true ↔ IsAddress x) ∧
    (∀ x : JSString, 64 ∉ x → isValidEmail x = false) ∧
    (∀ a b : JSString, [46, 46] <:+: b → isValidEmail (a ++ 64 :: b) = false) ∧
    (∀ d : Dom, (validateField .email d).1 = true ↔
      trim (d.value .email) ≠ [] ∧ isValidEmail (trim (d.value .email)) = true) := by
  refine ⟨isValidEmail_iff, ?_, ?_, ?_⟩
  · intro x hx
    rw [Bool.eq_false_iff]
    intro h
    obtain ⟨L, D, rfl, -⟩ := (isValidEmail_iff x).1 h
    exact hx (by simp)
  · intro a b hb
    rw [Bool.eq_false_iff]
    intro h
    have hD := ((isValidEmail_iff _).1 h).split.2.2
    have hchain := List.Chain'.infix hD.shape.2 hb
    rw [List.chain'_cons] at hchain
    exact hchain.1 ⟨rfl, rfl⟩
  · intro d
    rw [validateField_fst]
    simp only [validate]
    by_cases ht : trim (d.value .email) = []
    · simp [ht]
    · by_cases hv : isValidEmail (trim (d.value .email)) = true
      · simp [ht, hv]
      · simp [ht, hv]

/-! ## The orchestrator -/

theorem validateField_classes (f : FieldName) (d : Dom) :
    (validateField f d).2.classes f =
      { error := !(validate f (d.value f)).1, success := (validate f (d.value f)).1 } := by
  simp only [validateField, updateFieldStyle, Function.update_same]
  cases h : (validate f (d.value f)).1 <;> simp [h]

/-- The page after the `forEach` over the required fields. -/
theorem foldl_validateRequired (d : Dom) :
    requiredFields.foldl validateRequired (true, d) =
      ((validate .name (d.value .name)).1 && (validate .email (d.value .email)).1 &&
        (validate .subject (d.value .subject)).1 && (validate .message (d.value .message)).1,
       (validateField .message (validateField .subject
          (validateField .email (validateField .name d).2).2).2).2) := by
  simp only [requiredFields, List.foldl, validateRequired, validateField_fst,
    validateField_value]
  cases (validate .name (d.value .name)).1 <;> cases (validate .email (d.value .email)).1 <;>
    cases (validate .subject (d.value .subject)).1 <;>
    cases (validate .message (d.value .message)).1 <;> rfl

theorem validateAllFields_fst (d : Dom) :
    (validateAllFields d).1 =
      ((validate .name (d.value .name)).1 && (validate .email (d.value .email)).1 &&
        (validate .subject (d.value .subject)).1 && (validate .message (d.value .message)).1 &&
        ((trim (d.value .phone)).isEmpty || (validate .phone (d.value .phone)).1)) := by
  unfold validateAllFields
  rw [foldl_validateRequired]
  simp only [validateField_value, validateField_fst]
  cases (trim (d.value .phone)).isEmpty <;> cases (validate .phone (d.value .phone)).1 <;>
    simp

/-- C2: `validateAllFields` returns true exactly when `validateField` is valid
for name, email, subject and message and, if the trimmed phone value is
non-empty, for phone; each required field receives its own validator's error
text and style whatever the other fields do (no short-circuit); and with an
empty trimmed phone value the phone's error text and style are left as they
were (its validator is not run). -/
theorem validateAllFields_spec (d : Dom) :
    ((validateAllFields d).1 = true ↔
      (validateField .name d).1 = true ∧ (validateField .email d).1 = true ∧
      (validateField .subject d).1 = true ∧ (validateField .message d).1 = true ∧
      (trim (d.value .phone) ≠ [] → (validateField .phone d).1 = true)) ∧
    (∀ f ∈ requiredFields,
      (validateAllFields d).2.errorText f = (validateField f d).2.errorText f ∧
      (validateAllFields d).2.classes f = (validateField f d).2.classes f) ∧
    (trim (d.value .phone) = [] →
      (validateAllFields d).2.errorText .phone = d.errorText .phone ∧
      (validateAllFields d).2.classes .phone = d.classes .phone) := by
  refine ⟨?_, ?_, ?_⟩
  · rw [validateAllFields_fst]
    simp only [validateField_fst, Bool.and_eq_true, Bool.or_eq_true, List.isEmpty_iff]
    constructor
    · rintro ⟨⟨⟨⟨h1, h2⟩, h3⟩, h4⟩, h5⟩
      exact ⟨h1, h2, h3, h4, fun hne => h5.resolve_left hne⟩
    · rintro ⟨h1, h2, h3, h4, h5⟩
      refine ⟨⟨⟨⟨h1, h2⟩, h3⟩, h4⟩, ?_⟩
      by_cases ht : trim (d.value .phone) = []
      · exact Or.inl ht
      · exact Or.inr (h5 ht)
  · intro f hf
    unfold validateAllFields
    rw [foldl_validateRequired]
    simp only [requiredFields, List.mem_cons, List.mem_singleton, List.not_mem_nil,
      or_false] at hf
    rcases hf with rfl | rfl | rfl | rfl <;>
      by_cases ht : (trim (d.value .phone)).isEmpty = true <;>
      simp [ht, validateField, updateFieldStyle, showFieldError, hasErrorElement]
  · intro ht
    unfold validateAllFields
    rw [foldl_validateRequired]
    simp [ht, validateField, updateFieldStyle, showFieldError, hasErrorElement]

/-! ## The name, phone and message rules -/

theorem nameRegex_test_iff (t : JSString) :
    nameRegex.test t = true ↔ t ≠ [] ∧ ∀ c ∈ t, isNameChar c = true :=
  test_iff (recognizes_plus_cls isNameChar) t

theorem validate_name_third {t : JSString} (h2 : 2 ≤ t.length)
    (hc : ∃ c ∈ t, isNameChar c = false) :
    (if t.isEmpty = true then (false, js "Name is required")
      else if t.length < 2 then (false, js "Name must be at least 2 characters long")
      else if (!nameRegex.test t) = true then
        (false, js "Name can only contain letters, spaces, hyphens, and apostrophes")
      else (true, [])) =
      (false, js "Name can only contain letters, spaces, hyphens, and apostrophes") := by
  have hne : t ≠ [] := by
    rintro rfl
    simp at h2
  have htest : nameRegex.test t = false := by
    rw [Bool.eq_false_iff, Ne, nameRegex_test_iff]
    rintro ⟨-, hall⟩
    obtain ⟨c, hct, hcf⟩ := hc
    rw [hall c hct] at hcf
    exact Bool.noConfusion hcf
  have hlen : ¬ t.length < 2 := by omega
  simp [hne, hlen, htest]

/-- C7: on the trimmed name `t`, `validateField('name')` reports the first
failing check in order: `Name is required` when `t` is empty, else the
two-characters message when `t` is shorter than 2, else the letters-only
message when `t` has a character that is not an ASCII letter, white space,
apostrophe or hyphen; it is valid, with an empty message, exactly when none
fails. So a name of length at least 2 with a non-ASCII letter, such as the
one of `testSpecialCharacters`, gets the third message. -/
theorem validateField_name (d : Dom) :
    (trim (d.value .name) = [] →
      (validateField .name d).1 = false ∧
      (validateField .name d).2.errorText .name = js "Name is required") ∧
    (trim (d.value .name) ≠ [] → (trim (d.value .name)).length < 2 →
      (validateField .name d).1 = false ∧
      (validateField .name d).2.errorText .name =
        js "Name must be at least 2 characters long") ∧
    (2 ≤ (trim (d.value .name)).length →
      (∃ c ∈ trim (d.value .name), isNameChar c = false) →
      (validateField .name d).1 = false ∧
      (validateField .name d).2.errorText .name =
        js "Name can only contain letters, spaces, hyphens, and apostrophes") ∧
    ((validateField .name d).1 = true ↔
      trim (d.value .name) ≠ [] ∧ 2 ≤ (trim (d.value .name)).length ∧
      ∀ c ∈ trim (d.value .name), isNameChar c = true) ∧
    ((validateField .name d).1 = true → (validateField .name d).2.errorText .name = []) ∧
    (2 ≤ (trim (d.value .name)).length →
      (∃ c ∈ trim (d.value .name), 128 ≤ c ∧ isSpace c = false) →
      (validateField .name d).1 = false ∧
      (validateField .name d).2.errorText .name =
        js "Name can only contain letters, spaces, hyphens, and apostrophes") ∧
    (d.value .name = js "Jos\u00c3\u00a9 Mar\u00c3\u00ada O\x27Connor-Smith" →
      (validateField .name d).1 = false ∧
      (validateField .name d).2.errorText .name =
        js "Name can only contain letters, spaces, hyphens, and apostrophes") := by
  rw [validateField_fst, validateField_errorText _ _ (by decide)]
  simp only [validate]
  have third : 2 ≤ (trim (d.value .name)).length →
      (∃ c ∈ trim (d.value .name), isNameChar c = false) → _ :=
    fun h2 hc => Prod.ext_iff.1 (validate_name_third h2 hc)
  refine ⟨?_, ?_, third, ?_, ?_, ?_, ?_⟩
  · intro ht
    simp [ht]
  · intro hne hlen
    simp [hne, hlen]
  · by_cases hne : trim (d.value .name) = []
    · simp [hne]
    · by_cases hlen : (trim (d.value .name)).length < 2
      · simp [hne, hlen]
      · by_cases htest : nameRegex.test (trim (d.value .name)) = true
        · have hall := ((nameRegex_test_iff _).1 htest).2
          simp only [List.isEmpty_iff, hne, hlen, htest, if_false, Bool.not_true,
            Bool.false_eq_true, ne_eq, not_false_eq_true, true_and]
          exact ⟨fun _ => ⟨by omega, hall⟩, fun _ => trivial⟩
        · have hnall : ¬ ∀ c ∈ trim (d.value .name), isNameChar c = true :=
            fun hall => htest ((nameRegex_test_iff _).2 ⟨hne, hall⟩)
          simp [hne, hlen, htest, hnall]
  · by_cases hne : trim (d.value .name) = []
    · simp [hne]
    · by_cases hlen : (trim (d.value .name)).length < 2
      · simp [hne, hlen]
      · by_cases htest : nameRegex.test (trim (d.value .name)) = true
        · simp [hne, hlen, htest]
        · simp [hne, hlen, htest]
  · rintro h2 ⟨c, hc, h128, hsp⟩
    refine third h2 ⟨c, hc, ?_⟩
    simp only [isNameChar, isLetter, isLower, isUpper, hsp, Bool.or_eq_false_iff,
      Bool.and_eq_false_iff, decide_eq_false_iff_not, beq_eq_false_iff_ne]
    exact ⟨⟨⟨⟨by omega, by omega⟩, trivial⟩, by omega⟩, by omega⟩
  · intro hv
    rw [hv]
    decide

theorem isValidPhone_iff (t : JSString) : isValidPhone t = true ↔ t.countP isDigit = 10 := by
  simp [isValidPhone, stripNonDigits, List.countP_eq_length_filter]

/-- C8: on the trimmed phone `t`, `validateField('phone')` is valid exactly
when `t` is empty or has exactly 10 digit characters, other characters being
ignored; when invalid the message is `Please enter a valid phone number`, when
valid it is empty. So 9 or 11 digits are rejected and an empty phone is never
an error. -/
theorem validateField_phone (d : Dom) :
    ((validateField .phone d).1 = true ↔
      trim (d.value .phone) = [] ∨ (trim (d.value .phone)).countP isDigit = 10) ∧
    ((validateField .phone d).1 = false →
      (validateField .phone d).2.errorText .phone = js "Please enter a valid phone number") ∧
    ((validateField .phone d).1 = true → (validateField .phone d).2.errorText .phone = []) ∧
    ((trim (d.value .phone)).countP isDigit = 9 ∨ (trim (d.value .phone)).countP isDigit = 11 →
      (validateField .phone d).1 = false) ∧
    (trim (d.value .phone) = [] →
      (validateField .phone d).1 = true ∧ (validateField .phone d).2.errorText .phone = []) := by
  rw [validateField_fst, validateField_errorText _ _ (by decide)]
  simp only [validate]
  by_cases hne : trim (d.value .phone) = []
  · simp [hne]
  · by_cases hv : isValidPhone (trim (d.value .phone)) = true
    · have h10 := (isValidPhone_iff _).1 hv
      simp [hne, hv, h10]
    · have h10 : ¬ (trim (d.value .phone)).countP isDigit = 10 :=
        fun h => hv ((isValidPhone_iff _).2 h)
      simp [hne, hv, h10]

/-- C9: on the trimmed message `t`, `validateField('message')` is valid exactly
when `10 ≤ length t ≤ 500`; the error is `Message is required` for the empty
text, the ten-characters message for lengths 1 to 9 and the exceeds-500
message from length 501 on; lengths 10 and 500 pass, 9 and 501 fail. -/
theorem validateField_message (d : Dom) :
    ((validateField .message d).1 = true ↔
      10 ≤ (trim (d.value .message)).length ∧ (trim (d.value .message)).length ≤ 500) ∧
    ((validateField .message d).1 = true →
      (validateField .message d).2.errorText .message = []) ∧
    (trim (d.value .message) = [] →
      (validateField .message d).1 = false ∧
      (validateField .message d).2.errorText .message = js "Message is required") ∧
    (1 ≤ (trim (d.value .message)).length → (trim (d.value .message)).length ≤ 9 →
      (validateField .message d).1 = false ∧
      (validateField .message d).2.errorText .message =
        js "Message must be at least 10 characters long") ∧
    (501 ≤ (trim (d.value .message)).length →
      (validateField .message d).1 = false ∧
      (validateField .message d).2.errorText .message =
        js "Message cannot exceed 500 characters") ∧
    ((trim (d.value .message)).length = 10 ∨ (trim (d.value .message)).length = 500 →
      (validateField .message d).1 = true) ∧
    ((trim (d.value .message)).length = 9 ∨ (trim (d.value .message)).length = 501 →
      (validateField .message d).1 = false) := by
  rw [validateField_fst, validateField_errorText _ _ (by decide)]
  simp only [validate]
  by_cases hne : trim (d.value .message) = []
  · simp [hne]
  · have hpos : 1 ≤ (trim (d.value .message)).length :=
      List.length_pos.2 hne
    by_cases h10 : (trim (d.value .message)).length < 10
    · simp only [List.isEmpty_iff, hne, h10, if_true, if_false]
      refine ⟨?_, ?_, ?_, ?_, ?_, ?_, ?_⟩ <;> simp <;> omega
    · by_cases h500 : (trim (d.value .message)).length > 500
      · simp only [List.isEmpty_iff, hne, h10, h500, if_true, if_false]
        refine ⟨?_, ?_, ?_, ?_, ?_, ?_, ?_⟩ <;> simp <;> omega
      · simp only [List.isEmpty_iff, hne, h10, h500, if_true, if_false]
        refine ⟨?_, ?_, ?_, ?_, ?_, ?_, ?_⟩ <;> simp <;> omega

/-- C10: the counter shows `<used>/500 characters` with `used` the length of
the message text; it carries neither marker when `used ≤ 400`, the warning
marker alone when `400 < used ≤ 500`, and the error marker when `used > 500`.
The empty text and length 400 give no marker, lengths 401 and 500 the warning,
length 501 the error. -/
theorem updateCharCounter_level (d : Dom) :
    (updateCharCounter d).charCountText =
      decimal (d.value .message).length ++ js "/500 characters" ∧
    ((d.value .message).length ≤ 400 →
      (updateCharCounter d).charCountClasses = { warning := false, error := false }) ∧
    (400 < (d.value .message).length → (d.value .message).length ≤ 500 →
      (updateCharCounter d).charCountClasses = { warning := true, error := false }) ∧
    (500 < (d.value .message).length →
      (updateCharCounter d).charCountClasses.error = true) ∧
    (d.value .message = [] →
      (updateCharCounter d).charCountText = js "0/500 characters" ∧
      (updateCharCounter d).charCountClasses = { warning := false, error := false }) ∧
    ((d.value .message).length = 400 →
      (updateCharCounter d).charCountClasses = { warning := false, error := false }) ∧
    ((d.value .message).length = 401 ∨ (d.value .message).length = 500 →
      (updateCharCounter d).charCountClasses = { warning := true, error := false }) ∧
    ((d.value .message).length = 501 →
      (updateCharCounter d).charCountClasses.error = true) := by
  have htext : (updateCharCounter d).charCountText =
      decimal (d.value .message).length ++ js "/500 characters" := by
    have h : js "/" ++ decimal 500 ++ js " characters" = js "/500 characters" := by decide
    simp only [updateCharCounter, List.append_assoc]
    rw [← h, List.append_assoc]
  have hnormal : (d.value .message).length ≤ 400 →
      (updateCharCounter d).charCountClasses = { warning := false, error := false } := by
    intro h
    have h1 : ¬ (d.value .message).length > 400 := by omega
    have h2 : ¬ (d.value .message).length > 500 := by omega
    simp [updateCharCounter, h1, h2]
  have hwarn : 400 < (d.value .message).length → (d.value .message).length ≤ 500 →
      (updateCharCounter d).charCountClasses = { warning := true, error := false } := by
    intro h h'
    have h2 : ¬ (d.value .message).length > 500 := by omega
    simp [updateCharCounter, h, h2]
  have herror : 500 < (d.value .message).length →
      (updateCharCounter d).charCountClasses.error = true := by
    intro h
    simp [updateCharCounter, h]
  refine ⟨htext, hnormal, hwarn, herror, ?_, ?_, ?_, ?_⟩
  · intro h0
    refine ⟨?_, hnormal (by simp [h0])⟩
    rw [htext, h0]
    decide
  · intro h
    exact hnormal (by omega)
  · intro h
    exact hwarn (by omega) (by omega)
  · intro h
    exact herror (by omega)

/-! ## Phone formatting -/

theorem stripNonDigits_isDigit (x : JSString) : ∀ c ∈ stripNonDigits x, isDigit c = true :=
  fun _ hc => (List.mem_filter.1 hc).2

theorem formatPhoneNumber_congr {x y : JSString} (h : stripNonDigits x = stripNonDigits y) :
    formatPhoneNumber x = formatPhoneNumber y := by
  unfold formatPhoneNumber
  rw [h]

/-- With ten digits or more, the first ten are grouped as `(ddd) ddd-dddd`. -/
theorem formatPhoneNumber_ten {x : JSString} {d1 d2 d3 d4 d5 d6 d7 d8 d9 d10 : Nat}
    {rest : JSString}
    (h : stripNonDigits x = d1 :: d2 :: d3 :: d4 :: d5 :: d6 :: d7 :: d8 :: d9 :: d10 :: rest) :
    formatPhoneNumber x = [40, d1, d2, d3, 41, 32, d4, d5, d6, 45, d7, d8, d9, d10] := by
  have hall := stripNonDigits_isDigit x
  rw [h] at hall
  simp only [List.mem_cons, forall_eq_or_imp] at hall
  obtain ⟨h1, h2, h3, h4, h5, h6, h7, h8, h9, h10, -⟩ := hall
  simp [formatPhoneNumber, h, substring0, replaceFirst, matchGroups, expand, template10,
    h1, h2, h3, h4, h5, h6, h7, h8, h9, h10]

/-- With three to nine digits: `(ddd)` and the rest up to five digits,
`(ddd) ddd` and the rest from six digits on. -/
theorem formatPhoneNumber_short (x : JSString) :
    (3 ≤ (stripNonDigits x).length → (stripNonDigits x).length ≤ 5 →
      formatPhoneNumber x =
        40 :: (stripNonDigits x).take 3 ++ 41 :: (stripNonDigits x).drop 3) ∧
    (6 ≤ (stripNonDigits x).length → (stripNonDigits x).length ≤ 9 →
      formatPhoneNumber x =
        40 :: (stripNonDigits x).take 3 ++ 41 :: 32 ::
          ((stripNonDigits x).drop 3).take 3 ++ (stripNonDigits x).drop 6) := by
  have hall := stripNonDigits_isDigit x
  unfold formatPhoneNumber
  generalize stripNonDigits x = ds at hall ⊢
  rcases ds with _ | ⟨a0, _ | ⟨a1, _ | ⟨a2, _ | ⟨a3, _ | ⟨a4, _ | ⟨a5, _ | ⟨a6, _ | ⟨a7,
    _ | ⟨a8, _ | ⟨a9, r⟩⟩⟩⟩⟩⟩⟩⟩⟩⟩ <;>
    simp only [List.mem_cons, forall_eq_or_imp, List.not_mem_nil] at hall <;>
    simp [replaceFirst, matchGroups, expand, template6, template3, hall]

/-- The digits of the formatted value are the first ten digits of the input. -/
theorem stripNonDigits_formatPhoneNumber (x : JSString) :
    stripNonDigits (formatPhoneNumber x) = (stripNonDigits x).take 10 := by
  have hall := stripNonDigits_isDigit x
  have h40 : isDigit 40 = false := by decide
  have h41 : isDigit 41 = false := by decide
  have h32 : isDigit 32 = false := by decide
  have h45 : isDigit 45 = false := by decide
  unfold formatPhoneNumber
  generalize stripNonDigits x = ds at hall ⊢
  rcases ds with _ | ⟨a0, _ | ⟨a1, _ | ⟨a2, _ | ⟨a3, _ | ⟨a4, _ | ⟨a5, _ | ⟨a6, _ | ⟨a7,
    _ | ⟨a8, _ | ⟨a9, r⟩⟩⟩⟩⟩⟩⟩⟩⟩⟩ <;>
    simp only [List.mem_cons, forall_eq_or_imp, List.not_mem_nil] at hall <;>
    simp [replaceFirst, matchGroups, expand, template10, template6, template3, substring0,
      stripNonDigits, hall, h40, h41, h32, h45]

theorem formatPhoneNumber_take (x y : JSString)
    (h : stripNonDigits y = (stripNonDigits x).take 10) :
    formatPhoneNumber y = formatPhoneNumber x := by
  unfold formatPhoneNumber
  rw [h]
  by_cases hlen : 10 ≤ (stripNonDigits x).length
  · have h10 : (List.take 10 (stripNonDigits x)).length = 10 := by
      rw [List.length_take]
      omega
    simp [hlen, h10, substring0, List.take_take]
  · have htake : List.take 10 (stripNonDigits x) = stripNonDigits x :=
      List.take_of_length_le (by omega)
    rw [htake]

/-- C4 fails as stated: five digits are grouped as `(123)45`, without the space
the claim puts after the parenthesis, and seven digits as `(123) 4567`, without
the hyphen it puts after the second group. -/
theorem formatPhoneNumber_grouping_counterexample :
    (stripNonDigits (js "12345")).length = 5 ∧
    formatPhoneNumber (js "12345") = js "(123)45" ∧
    formatPhoneNumber (js "12345") ≠ js "(" ++ js "123" ++ js ") " ++ js "45" ∧
    (stripNonDigits (js "1234567")).length = 7 ∧
    formatPhoneNumber (js "1234567") = js "(123) 4567" ∧
    formatPhoneNumber (js "1234567") ≠
      js "(" ++ js "123" ++ js ") " ++ js "456" ++ js "-" ++ js "7" := by
  decide

/-- C4, amended: with 3 to 5 digits the result is `(`, the first three digits,
`)` and the remaining digits; with 6 to 9 digits it is `(`, the first three
digits, `) `, the next three digits and the remaining digits. -/
theorem formatPhoneNumber_grouping (x : JSString) (h3 : 3 ≤ (stripNonDigits x).length)
    (h9 : (stripNonDigits x).length ≤ 9) :
    ((stripNonDigits x).length ≤ 5 →
      formatPhoneNumber x =
        js "(" ++ (stripNonDigits x).take 3 ++ js ")" ++ (stripNonDigits x).drop 3) ∧
    (6 ≤ (stripNonDigits x).length →
      formatPhoneNumber x =
        js "(" ++ (stripNonDigits x).take 3 ++ js ") " ++
          ((stripNonDigits x).drop 3).take 3 ++ (stripNonDigits x).drop 6) := by
  have hp : js "(" = [40] := by decide
  have hq : js ")" = [41] := by decide
  have hqs : js ") " = [41, 32] := by decide
  rw [hp, hq, hqs]
  constructor
  · intro h5
    rw [(formatPhoneNumber_short x).1 h3 h5]
    simp
  · intro h6
    rw [(formatPhoneNumber_short x).2 h6 h9]
    simp

theorem formatPhoneNumber_grouping_witness :
    (3 ≤ (stripNonDigits (js "555-1234")).length ∧
      (stripNonDigits (js "555-1234")).length ≤ 9) ∧
    formatPhoneNumber (js "555-1234") = js "(555) 1234" :=
  ⟨by decide, by
    have h := (formatPhoneNumber_grouping (js "555-1234") (by decide) (by decide)).2
      (by decide)
    rw [h]
    decide⟩

/-- C5: formatting is idempotent, for every input. -/
theorem formatPhoneNumber_idempotent (x : JSString) :
    formatPhoneNumber (formatPhoneNumber x) = formatPhoneNumber x :=
  formatPhoneNumber_take x (formatPhoneNumber x) (stripNonDigits_formatPhoneNumber x)

/-- C6: when the input has at least ten digits `d1 … d10 …`, the result is the
14-character text `(d1d2d3) d4d5d6-d7d8d9d10`; non-digits and digits after the
tenth are dropped; `(555) 123-4567` maps to itself. -/
theorem formatPhoneNumber_full :
    (∀ (x : JSString) (d1 d2 d3 d4 d5 d6 d7 d8 d9 d10 : Nat) (rest : JSString),
      stripNonDigits x = d1 :: d2 :: d3 :: d4 :: d5 :: d6 :: d7 :: d8 :: d9 :: d10 :: rest →
      formatPhoneNumber x =
        js "(" ++ [d1, d2, d3] ++ js ") " ++ [d4, d5, d6] ++ js "-" ++ [d7, d8, d9, d10]) ∧
    (∀ x : JSString, 10 ≤ (stripNonDigits x).length →
      (formatPhoneNumber x).length = 14 ∧
      stripNonDigits (formatPhoneNumber x) = (stripNonDigits x).take 10 ∧
      formatPhoneNumber x =
        js "(" ++ (stripNonDigits x).take 3 ++ js ") " ++ ((stripNonDigits x).drop 3).take 3 ++
          js "-" ++ ((stripNonDigits x).drop 6).take 4) ∧
    formatPhoneNumber (js "(555) 123-4567") = js "(555) 123-4567" := by
  have hp : js "(" = [40] := by decide
  have hqs : js ") " = [41, 32] := by decide
  have hh : js "-" = [45] := by decide
  rw [hp, hqs, hh]
  refine ⟨?_, ?_, by decide⟩
  · intro x d1 d2 d3 d4 d5 d6 d7 d8 d9 d10 rest h
    rw [formatPhoneNumber_ten h]
    rfl
  · intro x hlen
    refine ⟨?_, stripNonDigits_formatPhoneNumber x, ?_⟩ <;>
    · rcases hds : stripNonDigits x with _ | ⟨a0, _ | ⟨a1, _ | ⟨a2, _ | ⟨a3, _ | ⟨a4,
        _ | ⟨a5, _ | ⟨a6, _ | ⟨a7, _ | ⟨a8, _ | ⟨a9, r⟩⟩⟩⟩⟩⟩⟩⟩⟩⟩ <;>
        rw [hds] at hlen <;> simp at hlen
      rw [formatPhoneNumber_ten hds]
      simp

/-! ## The submission state machine -/

theorem validateField_visible (f : FieldName) (d : Dom) :
    (validateField f d).2.formVisible = d.formVisible ∧
    (validateField f d).2.successVisible = d.successVisible := by
  unfold validateField updateFieldStyle showFieldError
  split <;> exact ⟨rfl, rfl⟩

theorem validateAllFields_visible (d : Dom) :
    (validateAllFields d).2.formVisible = d.formVisible ∧
    (validateAllFields d).2.successVisible = d.successVisible := by
  unfold validateAllFields
  rw [foldl_validateRequired]
  simp only [validateField_value]
  by_cases ht : (trim (d.value .phone)).isEmpty = true <;>
    simp [ht, validateField_visible]

theorem clearFieldError_visible (f : FieldName) (d : Dom) :
    (clearFieldError f d).formVisible = d.formVisible ∧
    (clearFieldError f d).successVisible = d.successVisible := by
  unfold clearFieldError updateFieldStyle
  split <;> exact ⟨rfl, rfl⟩

theorem onInput_visible (f : FieldName) (v : JSString) (d : Dom) :
    (onInput f v d).formVisible = d.formVisible ∧
    (onInput f v d).successVisible = d.successVisible := by
  cases f <;> simp [onInput, updateCharCounter, clearFieldError_visible]

theorem onBlur_visible (f : FieldName) (d : Dom) :
    (onBlur f d).formVisible = d.formVisible ∧
    (onBlur f d).successVisible = d.successVisible := by
  cases f <;> simp [onBlur, validateField_visible]

theorem removeBanner_visible (el : Nat) (d : Dom) :
    (removeBanner el d).formVisible = d.formVisible ∧
    (removeBanner el d).successVisible = d.successVisible := by
  unfold removeBanner
  split
  · split <;> exact ⟨rfl, rfl⟩
  · exact ⟨rfl, rfl⟩

theorem resetForm_successVisible (d : Dom) : (resetForm d).successVisible = false := by
  simp [resetForm, List.foldl, clearFieldError_visible]

theorem showSubmissionError_frame (m : JSString) (s : Sys) :
    (showSubmissionError m s).now = s.now ∧
    (∃ el, (showSubmissionError m s).timers =
      s.timers ++ [{ due := s.now + 5000, action := .removeBanner el }]) ∧
    (showSubmissionError m s).dom.formVisible = s.dom.formVisible ∧
    (showSubmissionError m s).dom.successVisible = s.dom.successVisible := by
  unfold showSubmissionError setTimeout
  split
  · exact ⟨rfl, ⟨_, rfl⟩, rfl, rfl⟩
  · exact ⟨rfl, ⟨_, rfl⟩, rfl, rfl⟩

theorem validateAllFields_fst_hidden (d : Dom) :
    (validateAllFields { d with successVisible := false }).1 = (validateAllFields d).1 := by
  rw [validateAllFields_fst, validateAllFields_fst]

/-- One timer callback keeps the clock, keeps every pending settle timer
justified by `Q`, and shows the success panel only with such a justification. -/
theorem runTimer_inv (Q : Nat → Prop) (rnd : Bool) (a : TimerAction) (s : Sys)
    (hd : a = .settle → ∃ T, T ≤ s.now ∧ Q T)
    (ht : ∀ u ∈ s.timers, u.action = .settle → Q u.due)
    (hs : isSuccess s.dom → ∃ T, T ≤ s.now ∧ Q T) :
    (runTimer rnd a s).now = s.now ∧
    (∀ u ∈ (runTimer rnd a s).timers, u.action = .settle → Q u.due) ∧
    (isSuccess (runTimer rnd a s).dom → ∃ T, T ≤ s.now ∧ Q T) := by
  cases a with
  | settle =>
    cases rnd with
    | true =>
      simp only [runTimer, resumeSubmit, showSuccess, setTimeout, if_true]
      refine ⟨trivial, ?_, fun _ => hd rfl⟩
      intro u hu hset
      rcases List.mem_append.1 hu with hu | hu
      · exact ht u hu hset
      · rw [List.mem_singleton.1 hu] at hset
        cases hset
    | false =>
      obtain ⟨hnow, ⟨el, htim⟩, hf, hsv⟩ := showSubmissionError_frame
        (js "There was an error sending your message. Please try again.") s
      simp only [runTimer, resumeSubmit, Bool.false_eq_true, if_false]
      refine ⟨hnow, ?_, ?_⟩
      · intro u hu hset
        rw [htim] at hu
        rcases List.mem_append.1 hu with hu | hu
        · exact ht u hu hset
        · rw [List.mem_singleton.1 hu] at hset
          cases hset
      · intro hsucc
        apply hs
        simp only [isSuccess, setLoadingState] at hsucc
        rw [hf, hsv] at hsucc
        exact hsucc
  | resetForm =>
    simp only [runTimer]
    refine ⟨trivial, ht, ?_⟩
    intro hsucc
    have := hsucc.2
    rw [resetForm_successVisible] at this
    cases this
  | removeBanner el =>
    simp only [runTimer]
    refine ⟨trivial, ht, ?_⟩
    intro hsucc
    apply hs
    simp only [isSuccess] at hsucc
    rw [(removeBanner_visible el s.dom).1, (removeBanner_visible el s.dom).2] at hsucc
    exact hsucc

theorem runTimers_inv (Q : Nat → Prop) (rnd : Nat → Bool) (ts : List Timer) :
    ∀ (i : Nat) (s : Sys),
      (∀ t ∈ ts, t.action = .settle → ∃ T, T ≤ s.now ∧ Q T) →
      (∀ u ∈ s.timers, u.action = .settle → Q u.due) →
      (isSuccess s.dom → ∃ T, T ≤ s.now ∧ Q T) →
      (runTimers rnd i ts s).now = s.now ∧
      (∀ u ∈ (runTimers rnd i ts s).timers, u.action = .settle → Q u.due) ∧
      (isSuccess (runTimers rnd i ts s).dom → ∃ T, T ≤ s.now ∧ Q T) := by
  induction ts with
  | nil =>
    intro i s _ ht hs
    exact ⟨rfl, ht, hs⟩
  | cons t ts ih =>
    intro i s hd ht hs
    obtain ⟨hnow, ht1, hs1⟩ := runTimer_inv Q (rnd i) t.action s (hd t (by simp)) ht hs
    have hd1 : ∀ t1 ∈ ts, t1.action = .settle →
        ∃ T, T ≤ (runTimer (rnd i) t.action s).now ∧ Q T := by
      intro t1 h1 hset
      rw [hnow]
      exact hd t1 (by simp [h1]) hset
    have := ih (i + 1) (runTimer (rnd i) t.action s) hd1 ht1 (by rw [hnow]; exact hs1)
    rw [hnow] at this
    exact this

/-- One event keeps every pending settle timer justified by `Q` and shows the
success panel only with such a justification, when `Q` holds 2000 ms after
every submit that passes validation. -/
theorem step_inv (Q : Nat → Prop) (s : Sys) (e : Event)
    (ht : ∀ u ∈ s.timers, u.action = .settle → Q u.due)
    (hs : isSuccess s.dom → ∃ T, T ≤ s.now ∧ Q T)
    (hsub : e = .submit → (validateAllFields s.dom).1 = true → Q (s.now + 2000)) :
    (∀ u ∈ (step s e).timers, u.action = .settle → Q u.due) ∧
    (isSuccess (step s e).dom → ∃ T, T ≤ (step s e).now ∧ Q T) := by
  cases e with
  | input f v =>
    refine ⟨ht, fun hsucc => hs ?_⟩
    simp only [step, isSuccess] at hsucc
    rw [(onInput_visible f v s.dom).1, (onInput_visible f v s.dom).2] at hsucc
    exact hsucc
  | blur f =>
    refine ⟨ht, fun hsucc => hs ?_⟩
    simp only [step, isSuccess] at hsucc
    rw [(onBlur_visible f s.dom).1, (onBlur_visible f s.dom).2] at hsucc
    exact hsucc
  | submit =>
    simp only [step, handleSubmit]
    by_cases hv : (validateAllFields s.dom).1 = true
    · have hv1 : (validateAllFields { s.dom with successVisible := false }).1 = true := by
        rw [validateAllFields_fst_hidden]
        exact hv
      simp only [hv1, Bool.not_true, Bool.false_eq_true, if_false, setTimeout]
      refine ⟨?_, ?_⟩
      · intro u hu hset
        rcases List.mem_append.1 hu with hu | hu
        · exact ht u hu hset
        · rw [List.mem_singleton.1 hu]
          exact hsub rfl hv
      · intro hsucc
        have := hsucc.2
        simp only [setLoadingState] at this
        rw [(validateAllFields_visible _).2] at this
        cases this
    · have hv1 : (validateAllFields { s.dom with successVisible := false }).1 = false := by
        rw [validateAllFields_fst_hidden]
        exact Bool.eq_false_iff.2 hv
      simp only [hv1, Bool.not_false, if_true]
      obtain ⟨-, ⟨el, htim⟩, -, hsv⟩ := showSubmissionError_frame
        (js "Please correct the errors above before submitting.")
        { s with dom := (validateAllFields { s.dom with successVisible := false }).2 }
      refine ⟨?_, ?_⟩
      · intro u hu hset
        rw [htim] at hu
        rcases List.mem_append.1 hu with hu | hu
        · exact ht u hu hset
        · rw [List.mem_singleton.1 hu] at hset
          cases hset
      · intro hsucc
        have := hsucc.2
        rw [hsv] at this
        simp only at this
        rw [(validateAllFields_visible _).2] at this
        cases this
  | tick rnd =>
    simp only [step]
    have h := runTimers_inv Q rnd
      (s.timers.filter (fun t => decide (t.due ≤ s.now + 1))) 0
      { s with now := s.now + 1,
               timers := s.timers.filter (fun t => !decide (t.due ≤ s.now + 1)) }
      (by
        intro t htm hset
        obtain ⟨hmem, hdue⟩ := List.mem_filter.1 htm
        exact ⟨t.due, by simpa using hdue, ht t hmem hset⟩)
      (by
        intro u hu hset
        exact ht u (List.mem_filter.1 hu).1 hset)
      (by
        intro hsucc
        obtain ⟨T, hT, hQ⟩ := hs hsucc
        exact ⟨T, Nat.le_succ_of_le hT, hQ⟩)
    obtain ⟨hnow, ht1, hs1⟩ := h
    refine ⟨ht1, ?_⟩
    intro hsucc
    rw [hnow]
    exact hs1 hsucc

theorem ValidSubmitAt.mono {events : List Event} {T : Nat} (h : ValidSubmitAt events T)
    (e : Event) : ValidSubmitAt (events ++ [e]) T := by
  obtain ⟨pre, post, rfl, hv, hT⟩ := h
  exact ⟨pre, post ++ [e], by simp, hv, hT⟩

theorem run_append_singleton (s : Sys) (l : List Event) (e : Event) :
    run s (l ++ [e]) = step (run s l) e := by
  simp [run, List.foldl_append]

/-- In every reachable state each pending settle timer was set by a submit that
passed validation, and so was the one behind a shown success panel. -/
theorem reachable_inv (events : List Event) :
    (∀ u ∈ (run initial events).timers, u.action = .settle → ValidSubmitAt events u.due) ∧
    (isSuccess (run initial events).dom →
      ∃ T, T ≤ (run initial events).now ∧ ValidSubmitAt events T) := by
  induction events using List.reverseRecOn with
  | nil =>
    refine ⟨?_, ?_⟩
    · intro u hu
      simp [run, initial] at hu
    · intro hsucc
      have := hsucc.2
      simp [run, initial, initialDom] at this
  | append_singleton l e ih =>
    rw [run_append_singleton]
    apply step_inv (ValidSubmitAt (l ++ [e]))
    · intro u hu hset
      exact (ih.1 u hu hset).mono e
    · intro hsucc
      obtain ⟨T, hT, hQ⟩ := ih.2 hsucc
      exact ⟨T, hT, hQ.mono e⟩
    · rintro rfl hv
      exact ⟨l, [], rfl, hv, rfl⟩

theorem step_tick_idle (s : Sys) (rnd : Nat → Bool)
    (h : ∀ t ∈ s.timers, s.now + 1 < t.due) :
    step s (.tick rnd) = { s with now := s.now + 1 } := by
  have hdue : s.timers.filter (fun t => decide (t.due ≤ s.now + 1)) = [] := by
    rw [List.filter_eq_nil_iff]
    intro t ht
    have := h t ht
    simp only [decide_eq_true_eq]
    omega
  have hlater : s.timers.filter (fun t => !decide (t.due ≤ s.now + 1)) = s.timers := by
    rw [List.filter_eq_self]
    intro t ht
    have := h t ht
    simp only [Bool.not_eq_true', decide_eq_false_iff_not]
    omega
  simp only [step, hdue, hlater, runTimers]

theorem run_ticks_idle (rnd : Nat → Bool) (n : Nat) : ∀ s : Sys,
    (∀ t ∈ s.timers, s.now + n < t.due) →
      run s (List.replicate n (.tick rnd)) = { s with now := s.now + n } := by
  induction n with
  | zero =>
    intro s _
    rfl
  | succ n ih =>
    intro s h
    have hstep := step_tick_idle s rnd (fun t ht => by have := h t ht; omega)
    have hrun : run s (List.replicate (n + 1) (.tick rnd)) =
        run (step s (.tick rnd)) (List.replicate n (.tick rnd)) := rfl
    rw [hrun, hstep, ih]
    · simp only [Nat.add_assoc, Nat.add_comm 1 n]
    · intro t ht
      have := h t ht
      simp only at ht ⊢
      omega

theorem run_append (s : Sys) (l1 l2 : List Event) :
    run s (l1 ++ l2) = run (run s l1) l2 := by
  simp [run, List.foldl_append]

/-- The valid test data, a submit and 2000 ms of clock with a resolving promise
lead to the success panel. -/
theorem fillValidData_succeeds :
    isSuccess (run initial
      (fillValidData ++ Event.submit :: List.replicate 2000 (Event.tick fun _ => true))).dom := by
  have hsplit : fillValidData ++ Event.submit :: List.replicate 2000 (Event.tick fun _ => true) =
      (fillValidData ++ [Event.submit]) ++
        (List.replicate 1999 (Event.tick fun _ => true) ++ [Event.tick fun _ => true]) := by
    rw [← List.replicate_succ', List.append_assoc]
    rfl
  rw [hsplit, run_append, run_append, run_ticks_idle]
  · exact ⟨by decide, by decide⟩
  · decide

/-! ## The subject rule, the digits of the formatted phone, counter and validator -/

/-- C18: on the trimmed subject `t`, `validateField('subject')` is valid
exactly when `t` has at least 3 characters, however long it is; the error is
`Subject is required` for the empty text and the three-characters message for
lengths 1 and 2. -/
theorem validateField_subject (d : Dom) :
    ((validateField .subject d).1 = true ↔ 3 ≤ (trim (d.value .subject)).length) ∧
    ((validateField .subject d).1 = true →
      (validateField .subject d).2.errorText .subject = []) ∧
    (trim (d.value .subject) = [] →
      (validateField .subject d).1 = false ∧
      (validateField .subject d).2.errorText .subject = js "Subject is required") ∧
    ((trim (d.value .subject)).length = 1 ∨ (trim (d.value .subject)).length = 2 →
      (validateField .subject d).1 = false ∧
      (validateField .subject d).2.errorText .subject =
        js "Subject must be at least 3 characters long") := by
  rw [validateField_fst, validateField_errorText _ _ (by decide)]
  simp only [validate]
  by_cases hne : trim (d.value .subject) = []
  · simp [hne]
  · have hpos : 1 ≤ (trim (d.value .subject)).length := List.length_pos.2 hne
    by_cases h3 : (trim (d.value .subject)).length < 3
    · simp only [List.isEmpty_iff, hne, h3, if_true, if_false]
      refine ⟨?_, ?_, ?_, ?_⟩ <;> simp
      omega
    · simp only [List.isEmpty_iff, hne, h3, if_true, if_false]
      refine ⟨?_, ?_, ?_, ?_⟩ <;> simp
      all_goals omega

/-- Every character of the formatted value is a digit or one of `(`, `)`,
space, `-`. -/
theorem formatPhoneNumber_chars (x : JSString) :
    ∀ c ∈ formatPhoneNumber x, isDigit c = true ∨ c = 40 ∨ c = 41 ∨ c = 32 ∨ c = 45 := by
  have hall := stripNonDigits_isDigit x
  unfold formatPhoneNumber
  generalize stripNonDigits x = ds at hall ⊢
  rcases ds with _ | ⟨a0, _ | ⟨a1, _ | ⟨a2, _ | ⟨a3, _ | ⟨a4, _ | ⟨a5, _ | ⟨a6, _ | ⟨a7,
    _ | ⟨a8, _ | ⟨a9, r⟩⟩⟩⟩⟩⟩⟩⟩⟩⟩ <;>
    simp only [List.mem_cons, forall_eq_or_imp, List.not_mem_nil] at hall <;>
    simp [replaceFirst, matchGroups, expand, template10, template6, template3, substring0,
      hall]

/-- C19: the digits of `formatPhoneNumber x` are the first `min 10 n` digits of
`x` in order, and its other characters are among `(`, `)`, space and `-`; so
the formatted value passes `isValidPhone` exactly when `x` has at least 10
digits, and an input with fewer than 3 digits is reduced to its digits. -/
theorem formatPhoneNumber_digits (x : JSString) :
    stripNonDigits (formatPhoneNumber x) =
      (stripNonDigits x).take (min 10 (stripNonDigits x).length) ∧
    (∀ c ∈ formatPhoneNumber x, isDigit c = false → c ∈ js "() -") ∧
    (isValidPhone (formatPhoneNumber x) = true ↔ 10 ≤ (stripNonDigits x).length) ∧
    ((stripNonDigits x).length < 3 → formatPhoneNumber x = stripNonDigits x) ∧
    (stripNonDigits x = [] → formatPhoneNumber x = []) := by
  have hshort : (stripNonDigits x).length < 3 → formatPhoneNumber x = stripNonDigits x := by
    intro h
    have h10 : ¬ 10 ≤ (stripNonDigits x).length := by omega
    have h6 : ¬ 6 ≤ (stripNonDigits x).length := by omega
    have h3 : ¬ 3 ≤ (stripNonDigits x).length := by omega
    simp [formatPhoneNumber, h10, h6, h3]
  have hjs : js "() -" = [40, 41, 32, 45] := by decide
  refine ⟨?_, ?_, ?_, hshort, ?_⟩
  · rw [stripNonDigits_formatPhoneNumber, List.take_eq_take]
    omega
  · intro c hc hnd
    rw [hjs]
    rcases formatPhoneNumber_chars x c hc with h | h | h | h | h
    · rw [h] at hnd
      cases hnd
    all_goals simp [h]
  · unfold isValidPhone
    simp only [stripNonDigits_formatPhoneNumber, List.length_take, beq_iff_eq]
    omega
  · intro h0
    rw [hshort (by simp [h0]), h0]

theorem trim_length_le (s : JSString) : (trim s).length ≤ s.length := by
  unfold trim
  rw [List.length_reverse]
  exact le_trans (List.dropWhile_suffix _).length_le
    (by rw [List.length_reverse]; exact (List.dropWhile_suffix _).length_le)

/-- C20: when `validateField('message')` reports `Message cannot exceed 500
characters`, the counter computed on the same raw text carries the error
marker, the raw length being above 500; so while the counter shows at most 500
the validator does not report that error. -/
theorem counter_covers_validator (d : Dom) :
    ((validateField .message d).2.errorText .message =
        js "Message cannot exceed 500 characters" →
      500 < (d.value .message).length ∧
      (updateCharCounter d).charCountClasses.error = true) ∧
    ((d.value .message).length ≤ 500 →
      (validateField .message d).2.errorText .message ≠
        js "Message cannot exceed 500 characters") := by
  have key : (validateField .message d).2.errorText .message =
      js "Message cannot exceed 500 characters" → 500 < (d.value .message).length := by
    rw [validateField_errorText _ _ (by decide)]
    simp only [validate]
    have hle := trim_length_le (d.value .message)
    intro h
    by_cases hne : (trim (d.value .message)).isEmpty = true
    · rw [if_pos hne] at h
      exact absurd h (by decide)
    · rw [if_neg hne] at h
      by_cases h10 : (trim (d.value .message)).length < 10
      · rw [if_pos h10] at h
        exact absurd h (by decide)
      · rw [if_neg h10] at h
        by_cases h500 : (trim (d.value .message)).length > 500
        · omega
        · rw [if_neg h500] at h
          exact absurd h (by decide)
  refine ⟨fun h => ⟨key h, ?_⟩, fun hle h => ?_⟩
  · have := key h
    simp [updateCharCounter, this]
  · have := key h
    omega

/-! ## What the orchestrator leaves on the page -/

theorem validate_message_empty_iff (f : FieldName) (v : JSString) :
    (validate f v).2 = [] ↔ (validate f v).1 = true := by
  have h1 : js "Name is required" ≠ [] := by decide
  have h2 : js "Name must be at least 2 characters long" ≠ [] := by decide
  have h3 : js "Name can only contain letters, spaces, hyphens, and apostrophes" ≠ [] := by
    decide
  have h4 : js "Email is required" ≠ [] := by decide
  have h5 : js "Please enter a valid email address" ≠ [] := by decide
  have h6 : js "Please enter a valid phone number" ≠ [] := by decide
  have h7 : js "Subject is required" ≠ [] := by decide
  have h8 : js "Subject must be at least 3 characters long" ≠ [] := by decide
  have h9 : js "Message is required" ≠ [] := by decide
  have h10 : js "Message must be at least 10 characters long" ≠ [] := by decide
  have h11 : js "Message cannot exceed 500 characters" ≠ [] := by decide
  cases f <;> simp only [validate] <;> split_ifs <;> simp [*]

/-- A field that `validateAllFields` checks carries its validator's message
and the style of its validator's verdict afterwards. -/
theorem validateAllFields_checked (d : Dom) (f : FieldName) (hf : f ≠ .newsletter)
    (hp : f = .phone → trim (d.value .phone) ≠ []) :
    (validateAllFields d).2.errorText f = (validate f (d.value f)).2 ∧
    (validateAllFields d).2.classes f =
      { error := !(validate f (d.value f)).1, success := (validate f (d.value f)).1 } := by
  unfold validateAllFields
  rw [foldl_validateRequired]
  simp only [validateField_value]
  by_cases ht : (trim (d.value .phone)).isEmpty = true
  · have hne : f ≠ .phone := fun h => hp h (List.isEmpty_iff.1 ht)
    cases f <;> first | exact absurd rfl hf | exact absurd rfl hne | skip
    all_goals
      simp only [ht, Bool.not_true, Bool.false_eq_true, if_false]
      refine ⟨?_, ?_⟩
      · simp [validateField, updateFieldStyle, showFieldError, hasErrorElement]
      · simp only [validateField, updateFieldStyle, showFieldError, hasErrorElement]
        simp only [if_true, ne_eq, reduceCtorEq, not_false_eq_true,
          Function.update_noteq, Function.update_same]
        split <;> simp_all
  · cases f <;> first | exact absurd rfl hf | skip
    all_goals
      simp only [ht, Bool.not_false, if_true]
      refine ⟨?_, ?_⟩
      · simp [validateField, updateFieldStyle, showFieldError, hasErrorElement]
      · simp only [validateField, updateFieldStyle, showFieldError, hasErrorElement]
        simp only [if_true, ne_eq, reduceCtorEq, not_false_eq_true,
          Function.update_noteq, Function.update_same]
        split <;> simp_all

/-- C11 fails as stated: on a page whose phone is empty but still shows an
earlier error, `validateAllFields` leaves the error text and the error style in
place; and after a blur on the empty phone of the initial page, which gives it
the success style, `validateAllFields` leaves that style too. -/
theorem validateAllFields_phone_counterexample :
    (trim (stalePhoneError.value .phone) = [] ∧
      (validateAllFields stalePhoneError).2.errorText .phone =
        js "Please enter a valid phone number" ∧
      (validateAllFields stalePhoneError).2.classes .phone =
        { error := true, success := false }) ∧
    (trim ((run initial [.blur .phone]).dom.value .phone) = [] ∧
      (run initial [.blur .phone]).dom.errorText .phone = [] ∧
      (validateAllFields (run initial [.blur .phone]).dom).2.classes .phone =
        { error := false, success := true }) := by
  decide

/-- C11, amended: when the trimmed phone value is empty, `validateAllFields`
leaves the phone's error text and style exactly as they were; so the phone is
in neutral style with an empty error text afterwards exactly when it was
before the call. -/
theorem validateAllFields_phone_untouched (d : Dom) (h : trim (d.value .phone) = []) :
    (validateAllFields d).2.errorText .phone = d.errorText .phone ∧
    (validateAllFields d).2.classes .phone = d.classes .phone ∧
    (((validateAllFields d).2.errorText .phone = [] ∧
        (validateAllFields d).2.classes .phone = { error := false, success := false }) ↔
      (d.errorText .phone = [] ∧ d.classes .phone = { error := false, success := false })) := by
  have h1 : (validateAllFields d).2.errorText .phone = d.errorText .phone := by
    unfold validateAllFields
    rw [foldl_validateRequired]
    simp [h, validateField, updateFieldStyle, showFieldError, hasErrorElement]
  have h2 : (validateAllFields d).2.classes .phone = d.classes .phone := by
    unfold validateAllFields
    rw [foldl_validateRequired]
    simp [h, validateField, updateFieldStyle, showFieldError, hasErrorElement]
  exact ⟨h1, h2, by rw [h1, h2]⟩

theorem validateAllFields_phone_untouched_witness :
    trim (stalePhoneError.value .phone) = [] ∧
    (validateAllFields stalePhoneError).2.errorText .phone =
      stalePhoneError.errorText .phone :=
  ⟨by decide, (validateAllFields_phone_untouched stalePhoneError (by decide)).1⟩

/-- C12: after `validateAllFields`, each field it checked (the four required
ones, and phone when non-empty) carries the message of its validator, which is
empty exactly when the field is valid, and the success style when valid, the
error style when invalid. With the values of `fillValidData` the result is
true and the five error texts are empty; with those of `fillInvalidData` it is
false and the five fields carry a non-empty error text and the error style. -/
theorem validateAllFields_feedback :
    (∀ (d : Dom) (f : FieldName), f ∈ validatedFields →
      (f = .phone → trim (d.value .phone) ≠ []) →
      (validateAllFields d).2.errorText f = (validateField f d).2.errorText f ∧
      ((validateAllFields d).2.errorText f = [] ↔ (validateField f d).1 = true) ∧
      ((validateField f d).1 = true →
        (validateAllFields d).2.classes f = { error := false, success := true }) ∧
      ((validateField f d).1 = false →
        (validateAllFields d).2.classes f = { error := true, success := false })) ∧
    (∀ d : Dom, (validateAllFields (fillValidDataDom d)).1 = true ∧
      ∀ f ∈ validatedFields, (validateAllFields (fillValidDataDom d)).2.errorText f = []) ∧
    (∀ d : Dom, (validateAllFields (fillInvalidDataDom d)).1 = false ∧
      ∀ f ∈ validatedFields,
        (validateAllFields (fillInvalidDataDom d)).2.errorText f ≠ [] ∧
        (validateAllFields (fillInvalidDataDom d)).2.classes f =
          { error := true, success := false }) := by
  have hnews : ∀ f ∈ validatedFields, f ≠ FieldName.newsletter := by decide
  refine ⟨?_, ?_, ?_⟩
  · intro d f hf hp
    obtain ⟨he, hc⟩ := validateAllFields_checked d f (hnews f hf) hp
    rw [validateField_errorText f d (hnews f hf), validateField_fst, he, hc]
    refine ⟨rfl, validate_message_empty_iff f _, ?_, ?_⟩
    · intro hv
      rw [hv]
      rfl
    · intro hv
      rw [hv]
      rfl
  · intro d
    refine ⟨?_, ?_⟩
    · rw [validateAllFields_fst]
      simp only [fillValidDataDom]
      decide
    · intro f hf
      have hp : f = .phone → trim ((fillValidDataDom d).value .phone) ≠ [] := by
        intro _
        simp only [fillValidDataDom]
        decide
      rw [(validateAllFields_checked _ f (hnews f hf) hp).1]
      simp only [validatedFields, List.mem_cons, List.mem_singleton, List.not_mem_nil,
        or_false] at hf
      rcases hf with rfl | rfl | rfl | rfl | rfl <;> simp only [fillValidDataDom] <;> decide
  · intro d
    refine ⟨?_, ?_⟩
    · rw [validateAllFields_fst]
      simp only [fillInvalidDataDom]
      decide
    · intro f hf
      have hp : f = .phone → trim ((fillInvalidDataDom d).value .phone) ≠ [] := by
        intro _
        simp only [fillInvalidDataDom]
        decide
      obtain ⟨he, hc⟩ := validateAllFields_checked _ f (hnews f hf) hp
      rw [he, hc]
      simp only [validatedFields, List.mem_cons, List.mem_singleton, List.not_mem_nil,
        or_false] at hf
      rcases hf with rfl | rfl | rfl | rfl | rfl <;> simp only [fillInvalidDataDom] <;> decide

/-! ## Submitting -/

theorem validateField_frame (f : FieldName) (d : Dom) :
    (validateField f d).2.submitDisabled = d.submitDisabled ∧
    (validateField f d).2.btnTextVisible = d.btnTextVisible ∧
    (validateField f d).2.btnLoadingVisible = d.btnLoadingVisible ∧
    (validateField f d).2.banner = d.banner ∧
    (validateField f d).2.nextElement = d.nextElement := by
  unfold validateField updateFieldStyle showFieldError
  split <;> exact ⟨rfl, rfl, rfl, rfl, rfl⟩

theorem validateAllFields_frame (d : Dom) :
    (validateAllFields d).2.value = d.value ∧
    (validateAllFields d).2.submitDisabled = d.submitDisabled ∧
    (validateAllFields d).2.btnTextVisible = d.btnTextVisible ∧
    (validateAllFields d).2.btnLoadingVisible = d.btnLoadingVisible ∧
    (validateAllFields d).2.banner = d.banner ∧
    (validateAllFields d).2.nextElement = d.nextElement := by
  unfold validateAllFields
  rw [foldl_validateRequired]
  simp only [validateField_value]
  by_cases ht : (trim (d.value .phone)).isEmpty = true <;>
    simp [ht, validateField_frame, validateField_value]

/-- `showSubmissionError` puts the message in the banner, attached to the
element `el`, and schedules the removal of `el` 5000 ms later; nothing else
changes but the element counter. -/
theorem showSubmissionError_spec (m : JSString) (s : Sys) :
    ∃ el n, showSubmissionError m s =
      { dom := { s.dom with banner := some (el, m), nextElement := n }
        now := s.now
        timers := s.timers ++ [{ due := s.now + 5000, action := .removeBanner el }] } := by
  unfold showSubmissionError setTimeout
  split
  · exact ⟨_, s.dom.nextElement, rfl⟩
  · exact ⟨_, _, rfl⟩

theorem handleSubmit_of_invalid (s : Sys) (h : (validateAllFields s.dom).1 = false) :
    handleSubmit s =
      showSubmissionError (js "Please correct the errors above before submitting.")
        { s with dom := (validateAllFields { s.dom with successVisible := false }).2 } := by
  have h1 : (validateAllFields { s.dom with successVisible := false }).1 = false := by
    rw [validateAllFields_fst_hidden]
    exact h
  simp only [handleSubmit, h1, Bool.not_false, if_true]

theorem handleSubmit_of_valid (s : Sys) (h : (validateAllFields s.dom).1 = true) :
    handleSubmit s =
      setTimeout .settle 2000
        { s with
          dom := (setLoadingState true (validateAllFields { s.dom with successVisible := false }).2) } := by
  have h1 : (validateAllFields { s.dom with successVisible := false }).1 = true := by
    rw [validateAllFields_fst_hidden]
    exact h
  simp only [handleSubmit, h1, Bool.not_true, Bool.false_eq_true, if_false]

theorem pendingSubmissions_append_removeBanner (ts : List Timer) (due el : Nat) :
    (ts ++ [({ due := due, action := .removeBanner el } : Timer)]).countP
        (fun t => t.action == .settle) =
      ts.countP (fun t => t.action == .settle) := by
  rw [List.countP_append]
  simp [List.countP_cons]

/-- C13: when `validateAllFields` returns false, `handleSubmit` changes neither
the submit control nor its two labels, so from the idle state the control stays
enabled and the loading indicator hidden; it starts no submission call, hides
the success panel, keeps the field values, and sets the banner text to
`Please correct the errors above before submitting.`. -/
theorem handleSubmit_invalid (s : Sys) (h : (validateAllFields s.dom).1 = false) :
    (handleSubmit s).dom.submitDisabled = s.dom.submitDisabled ∧
    (handleSubmit s).dom.btnLoadingVisible = s.dom.btnLoadingVisible ∧
    (handleSubmit s).dom.btnTextVisible = s.dom.btnTextVisible ∧
    (s.dom.submitDisabled = false → s.dom.btnLoadingVisible = false →
      (handleSubmit s).dom.submitDisabled = false ∧
      (handleSubmit s).dom.btnLoadingVisible = false) ∧
    pendingSubmissions (handleSubmit s) = pendingSubmissions s ∧
    (∃ el, (handleSubmit s).timers =
      s.timers ++ [{ due := s.now + 5000, action := .removeBanner el }]) ∧
    (handleSubmit s).dom.successVisible = false ∧
    (handleSubmit s).dom.formVisible = s.dom.formVisible ∧
    (handleSubmit s).dom.value = s.dom.value ∧
    (∃ el, (handleSubmit s).dom.banner =
      some (el, js "Please correct the errors above before submitting.")) := by
  rw [handleSubmit_of_invalid s h]
  obtain ⟨el, n, hs⟩ := showSubmissionError_spec
    (js "Please correct the errors above before submitting.")
    { s with dom := (validateAllFields { s.dom with successVisible := false }).2 }
  rw [hs]
  obtain ⟨hv, hd, ht, hl, -, -⟩ := validateAllFields_frame { s.dom with successVisible := false }
  obtain ⟨hfv, hsv⟩ := validateAllFields_visible { s.dom with successVisible := false }
  simp only at hv hd ht hl hfv hsv ⊢
  refine ⟨hd, hl, ht, ?_, ?_, ⟨el, rfl⟩, hsv, hfv, hv, ⟨el, rfl⟩⟩
  · intro h1 h2
    exact ⟨hd.trans h1, hl.trans h2⟩
  · exact pendingSubmissions_append_removeBanner _ _ _

theorem handleSubmit_invalid_witness :
    (validateAllFields initial.dom).1 = false ∧
    (handleSubmit initial).dom.submitDisabled = initial.dom.submitDisabled :=
  ⟨by decide, (handleSubmit_invalid initial (by decide)).1⟩

/-- The last of `n + 1` ticks runs a timer that is then due, when it is the
only one pending. -/
theorem run_ticks_single (rnd : Nat → Bool) (n : Nat) (d : Dom) (now : Nat)
    (a : TimerAction) :
    run { dom := d, now := now, timers := [{ due := now + (n + 1), action := a }] }
        (List.replicate (n + 1) (.tick rnd)) =
      runTimer (rnd 0) a { dom := d, now := now + (n + 1), timers := [] } := by
  rw [List.replicate_succ', run_append, run_ticks_idle]
  · have hdue : decide (now + (n + 1) ≤ now + n + 1) = true := by
      simp only [decide_eq_true_eq]
      omega
    simp only [run, List.foldl, step, List.filter, hdue, Bool.not_true, runTimers]
    rfl
  · intro t ht
    simp only [List.mem_singleton] at ht
    subst ht
    simp only
    omega

/-- C14: on a valid page `handleSubmit` switches the loading state on and
starts one submission call; when the call settles, whatever the outcome, the
submit control is enabled, the normal label shown and the loading indicator
hidden. On success the form is hidden, the success panel shown and the banner
left as it was; on failure the form's visibility and the field values are left
as they were and the banner text is `There was an error sending your message.
Please try again.`. With no other timer pending the call settles 2000 ms
after the submit. -/
theorem handleSubmit_completes :
    (∀ s : Sys, (validateAllFields s.dom).1 = true →
      (handleSubmit s).dom.submitDisabled = true ∧
      (handleSubmit s).dom.btnTextVisible = false ∧
      (handleSubmit s).dom.btnLoadingVisible = true ∧
      (handleSubmit s).dom.value = s.dom.value ∧
      (handleSubmit s).dom.formVisible = s.dom.formVisible ∧
      (handleSubmit s).timers = s.timers ++ [{ due := s.now + 2000, action := .settle }]) ∧
    (∀ (s : Sys) (resolved : Bool),
      (resumeSubmit resolved s).dom.submitDisabled = false ∧
      (resumeSubmit resolved s).dom.btnTextVisible = true ∧
      (resumeSubmit resolved s).dom.btnLoadingVisible = false) ∧
    (∀ s : Sys,
      (resumeSubmit true s).dom.formVisible = false ∧
      (resumeSubmit true s).dom.successVisible = true ∧
      (resumeSubmit true s).dom.banner = s.dom.banner) ∧
    (∀ s : Sys,
      (resumeSubmit false s).dom.formVisible = s.dom.formVisible ∧
      (resumeSubmit false s).dom.successVisible = s.dom.successVisible ∧
      (resumeSubmit false s).dom.value = s.dom.value ∧
      ∃ el, (resumeSubmit false s).dom.banner =
        some (el, js "There was an error sending your message. Please try again.")) ∧
    (∀ (s : Sys) (rnd : Nat → Bool), (validateAllFields s.dom).1 = true → s.timers = [] →
      run (handleSubmit s) (List.replicate 2000 (.tick rnd)) =
        resumeSubmit (rnd 0)
          { dom := (handleSubmit s).dom, now := s.now + 2000, timers := [] }) := by
  refine ⟨?_, ?_, ?_, ?_, ?_⟩
  · intro s h
    rw [handleSubmit_of_valid s h]
    obtain ⟨hv, -⟩ := validateAllFields_frame { s.dom with successVisible := false }
    obtain ⟨hfv, -⟩ := validateAllFields_visible { s.dom with successVisible := false }
    exact ⟨rfl, rfl, rfl, hv, hfv, rfl⟩
  · intro s resolved
    exact ⟨rfl, rfl, rfl⟩
  · intro s
    exact ⟨rfl, rfl, rfl⟩
  · intro s
    obtain ⟨el, n, hs⟩ := showSubmissionError_spec
      (js "There was an error sending your message. Please try again.") s
    simp only [resumeSubmit, Bool.false_eq_true, if_false, hs, setLoadingState]
    exact ⟨trivial, trivial, trivial, el, rfl⟩
  · intro s rnd h ht
    have hsys : handleSubmit s =
        { dom := (handleSubmit s).dom, now := s.now,
          timers := [{ due := s.now + (1999 + 1), action := .settle }] } := by
      rw [handleSubmit_of_valid s h]
      simp only [setTimeout, ht, List.nil_append]
    rw [hsys]
    exact run_ticks_single rnd 1999 _ s.now .settle

/-! ## Resetting -/

/-- C16 fails as stated: `resetForm` does not enable the submit control. Run
on the page of a submission in progress, it leaves the control disabled. -/
theorem resetForm_submit_counterexample :
    (handleSubmit (run initial fillValidData)).dom.submitDisabled = true ∧
    (resetForm (handleSubmit (run initial fillValidData)).dom).submitDisabled = true := by
  decide

/-- C16, amended: `showSuccess` schedules `resetForm` 5000 ms later, and with
no other timer pending it runs then. Whatever the page before, `resetForm`
leaves every field value empty, the form visible, the success panel hidden, the
error texts of the five validated fields empty and their style neutral, the
counter at `0/500 characters` without markers, and the submit control as it
was; after a successful submission with no other timer pending the control is
therefore enabled. -/
theorem resetForm_spec :
    (∀ s : Sys, (showSuccess s).timers =
      s.timers ++ [{ due := s.now + 5000, action := .resetForm }]) ∧
    (∀ (s : Sys) (rnd : Nat → Bool), s.timers = [] →
      run (resumeSubmit true s) (List.replicate 5000 (.tick rnd)) =
        { dom := resetForm (resumeSubmit true s).dom, now := s.now + 5000, timers := [] } ∧
      (resetForm (resumeSubmit true s).dom).submitDisabled = false) ∧
    (∀ d : Dom,
      (∀ f, (resetForm d).value f = []) ∧
      (resetForm d).formVisible = true ∧
      (resetForm d).successVisible = false ∧
      (∀ f ∈ validatedFields,
        (resetForm d).errorText f = [] ∧
        (resetForm d).classes f = { error := false, success := false }) ∧
      (resetForm d).charCountText = js "0/500 characters" ∧
      (resetForm d).charCountClasses = { warning := false, error := false } ∧
      (resetForm d).submitDisabled = d.submitDisabled ∧
      (resetForm d).btnTextVisible = d.btnTextVisible ∧
      (resetForm d).btnLoadingVisible = d.btnLoadingVisible) := by
  have hreset : ∀ d : Dom,
      (∀ f, (resetForm d).value f = []) ∧
      (resetForm d).formVisible = true ∧
      (resetForm d).successVisible = false ∧
      (∀ f ∈ validatedFields,
        (resetForm d).errorText f = [] ∧
        (resetForm d).classes f = { error := false, success := false }) ∧
      (resetForm d).charCountText = js "0/500 characters" ∧
      (resetForm d).charCountClasses = { warning := false, error := false } ∧
      (resetForm d).submitDisabled = d.submitDisabled ∧
      (resetForm d).btnTextVisible = d.btnTextVisible ∧
      (resetForm d).btnLoadingVisible = d.btnLoadingVisible := by
    intro d
    refine ⟨?_, ?_, ?_, ?_, ?_, ?_, ?_, ?_, ?_⟩
    · intro f
      simp [resetForm, List.foldl, clearFieldError, updateFieldStyle, hasErrorElement]
    · simp [resetForm, List.foldl, clearFieldError, updateFieldStyle, hasErrorElement]
    · simp [resetForm, List.foldl, clearFieldError, updateFieldStyle, hasErrorElement]
    · intro f hf
      simp only [validatedFields, List.mem_cons, List.mem_singleton, List.not_mem_nil,
        or_false] at hf
      rcases hf with rfl | rfl | rfl | rfl | rfl <;>
        simp [resetForm, List.foldl, clearFieldError, updateFieldStyle, hasErrorElement]
    · simp [resetForm]
    · simp [resetForm]
    · simp [resetForm, List.foldl, clearFieldError, updateFieldStyle, hasErrorElement]
    · simp [resetForm, List.foldl, clearFieldError, updateFieldStyle, hasErrorElement]
    · simp [resetForm, List.foldl, clearFieldError, updateFieldStyle, hasErrorElement]
  refine ⟨fun s => rfl, ?_, hreset⟩
  intro s rnd ht
  refine ⟨?_, ?_⟩
  · have hsys : resumeSubmit true s =
        { dom := (resumeSubmit true s).dom, now := s.now,
          timers := [{ due := s.now + (4999 + 1), action := .resetForm }] } := by
      simp only [resumeSubmit, if_true, showSuccess, setTimeout, ht, List.nil_append]
    rw [hsys]
    exact run_ticks_single rnd 4999 _ s.now .resetForm
  · rw [(hreset _).2.2.2.2.2.2.1]
    rfl

/-! ## One submission at a time -/

theorem resetForm_frame (d : Dom) :
    (resetForm d).submitDisabled = d.submitDisabled ∧
    (resetForm d).btnLoadingVisible = d.btnLoadingVisible ∧
    (resetForm d).btnTextVisible = d.btnTextVisible := by
  refine ⟨?_, ?_, ?_⟩ <;>
    simp [resetForm, List.foldl, clearFieldError, updateFieldStyle, hasErrorElement]

theorem removeBanner_frame (el : Nat) (d : Dom) :
    (removeBanner el d).submitDisabled = d.submitDisabled ∧
    (removeBanner el d).btnLoadingVisible = d.btnLoadingVisible ∧
    (removeBanner el d).btnTextVisible = d.btnTextVisible := by
  unfold removeBanner
  split
  · split <;> exact ⟨rfl, rfl, rfl⟩
  · exact ⟨rfl, rfl, rfl⟩

theorem clearFieldError_frame (f : FieldName) (d : Dom) :
    (clearFieldError f d).submitDisabled = d.submitDisabled ∧
    (clearFieldError f d).btnLoadingVisible = d.btnLoadingVisible ∧
    (clearFieldError f d).btnTextVisible = d.btnTextVisible := by
  unfold clearFieldError updateFieldStyle
  split <;> exact ⟨rfl, rfl, rfl⟩

theorem onInput_frame (f : FieldName) (v : JSString) (d : Dom) :
    (onInput f v d).submitDisabled = d.submitDisabled ∧
    (onInput f v d).btnLoadingVisible = d.btnLoadingVisible ∧
    (onInput f v d).btnTextVisible = d.btnTextVisible := by
  cases f <;> simp [onInput, updateCharCounter, clearFieldError_frame]

theorem onBlur_frame (f : FieldName) (d : Dom) :
    (onBlur f d).submitDisabled = d.submitDisabled ∧
    (onBlur f d).btnLoadingVisible = d.btnLoadingVisible ∧
    (onBlur f d).btnTextVisible = d.btnTextVisible := by
  cases f <;> simp [onBlur, validateField_frame]

theorem pendingSubmissions_resumeSubmit (resolved : Bool) (s : Sys) :
    pendingSubmissions (resumeSubmit resolved s) = pendingSubmissions s := by
  cases resolved with
  | true =>
    simp only [pendingSubmissions, resumeSubmit, if_true, showSuccess, setTimeout]
    rw [List.countP_append]
    simp [List.countP_cons]
  | false =>
    obtain ⟨el, n, hs⟩ := showSubmissionError_spec
      (js "There was an error sending your message. Please try again.") s
    simp only [pendingSubmissions, resumeSubmit, Bool.false_eq_true, if_false, hs]
    exact pendingSubmissions_append_removeBanner _ _ _

theorem countP_filter_split (p q : Timer → Bool) (l : List Timer) :
    (l.filter q).countP p + (l.filter (fun t => !q t)).countP p = l.countP p := by
  induction l with
  | nil => rfl
  | cons t l ih =>
    cases hq : q t <;> cases hp : p t <;>
      simp [List.filter_cons, List.countP_cons, hq, hp] <;> omega

/-- Running due timers restores the invariant, when the settle timers still
to run are counted with the pending ones. -/
theorem runTimers_submitInv (rnd : Nat → Bool) (ts : List Timer) :
    ∀ (i : Nat) (s : Sys),
      ts.countP (fun t => t.action == .settle) + pendingSubmissions s =
        (if s.dom.submitDisabled = true then 1 else 0) →
      s.dom.btnLoadingVisible = s.dom.submitDisabled →
      s.dom.btnTextVisible = (!s.dom.submitDisabled) →
      SubmitInv (runTimers rnd i ts s) := by
  induction ts with
  | nil =>
    intro i s hc hl ht
    simp only [List.countP_nil, Nat.zero_add] at hc
    exact ⟨hc, hl, ht⟩
  | cons t ts ih =>
    intro i s hc hl ht
    simp only [runTimers]
    rw [List.countP_cons] at hc
    cases ha : t.action with
    | settle =>
      simp only [ha, beq_self_eq_true, if_true] at hc
      have hdis : s.dom.submitDisabled = true := by
        by_contra hne
        rw [if_neg hne] at hc
        omega
      rw [if_pos hdis] at hc
      apply ih
      · have hp : pendingSubmissions (runTimer (rnd i) .settle s) = pendingSubmissions s :=
          pendingSubmissions_resumeSubmit _ _
        have hfalse : (runTimer (rnd i) .settle s).dom.submitDisabled = false := rfl
        simp only [hp, hfalse, Bool.false_eq_true, if_false]
        omega
      · rfl
      · rfl
    | resetForm =>
      have hno : (TimerAction.resetForm == TimerAction.settle) = false := by decide
      simp only [ha, hno, Bool.false_eq_true, if_false, Nat.add_zero] at hc
      obtain ⟨h1, h2, h3⟩ := resetForm_frame s.dom
      apply ih
      · simp only [runTimer, pendingSubmissions, h1] at hc ⊢
        exact hc
      · simp only [runTimer, h1, h2]
        exact hl
      · simp only [runTimer, h1, h3]
        exact ht
    | removeBanner el =>
      have hno : (TimerAction.removeBanner el == TimerAction.settle) = false := by simp
      simp only [ha, hno, Bool.false_eq_true, if_false, Nat.add_zero] at hc
      obtain ⟨h1, h2, h3⟩ := removeBanner_frame el s.dom
      apply ih
      · simp only [runTimer, pendingSubmissions, h1] at hc ⊢
        exact hc
      · simp only [runTimer, h1, h2]
        exact hl
      · simp only [runTimer, h1, h3]
        exact ht

/-- An event keeps the invariant, a submit event when it comes from an enabled
control. -/
theorem step_submitInv (s : Sys) (e : Event) (hinv : SubmitInv s)
    (hsub : (match e with
      | .submit => !s.dom.submitDisabled
      | _ => true) = true) : SubmitInv (step s e) := by
  obtain ⟨hc, hl, ht⟩ := hinv
  cases e with
  | input f v =>
    obtain ⟨h1, h2, h3⟩ := onInput_frame f v s.dom
    simp only [SubmitInv, step, pendingSubmissions, h1, h2, h3] at hc ⊢
    exact ⟨hc, hl, ht⟩
  | blur f =>
    obtain ⟨h1, h2, h3⟩ := onBlur_frame f s.dom
    simp only [SubmitInv, step, pendingSubmissions, h1, h2, h3] at hc ⊢
    exact ⟨hc, hl, ht⟩
  | submit =>
    have hen : s.dom.submitDisabled = false := by simpa using hsub
    rw [hen] at hc hl ht
    simp only [Bool.false_eq_true, if_false] at hc
    simp only [step]
    by_cases hv : (validateAllFields s.dom).1 = true
    · rw [handleSubmit_of_valid s hv]
      refine ⟨?_, rfl, rfl⟩
      simp only [pendingSubmissions, setTimeout] at hc ⊢
      rw [List.countP_append, hc]
      rfl
    · have hv0 : (validateAllFields s.dom).1 = false := Bool.eq_false_iff.2 hv
      rw [handleSubmit_of_invalid s hv0]
      obtain ⟨el, n, hs⟩ := showSubmissionError_spec
        (js "Please correct the errors above before submitting.")
        { s with dom := (validateAllFields { s.dom with successVisible := false }).2 }
      rw [hs]
      obtain ⟨-, hd, htx, hlo, -, -⟩ :=
        validateAllFields_frame { s.dom with successVisible := false }
      simp only at hd htx hlo
      simp only [SubmitInv, pendingSubmissions]
      rw [pendingSubmissions_append_removeBanner, hd, htx, hlo, hen, hl, ht]
      simp only [pendingSubmissions] at hc
      simp [hc]
  | tick rnd =>
    simp only [step]
    apply runTimers_submitInv
    · simp only [pendingSubmissions] at hc ⊢
      rw [countP_filter_split, hc]
    · exact hl
    · exact ht

theorem run_submitInv (events : List Event) : ∀ s : Sys, SubmitInv s →
    submitsEnabled s events = true → SubmitInv (run s events) := by
  induction events with
  | nil =>
    intro s h _
    exact h
  | cons e es ih =>
    intro s h hen
    simp only [submitsEnabled, Bool.and_eq_true] at hen
    exact ih (step s e) (step_submitInv s e h hen.1) hen.2

theorem initial_submitInv : SubmitInv initial :=
  ⟨rfl, rfl, rfl⟩

/-- C15: when submit events come only from an enabled submit control, in every
reachable state a submission call is pending exactly when the control is
disabled with the loading indicator shown in place of the label; so at most
one call is pending at any time, and while one is pending no submit event is
accepted. -/
theorem single_pending_submission (events : List Event)
    (h : submitsEnabled initial events = true) :
    (0 < pendingSubmissions (run initial events) ↔ isLoading (run initial events).dom) ∧
    pendingSubmissions (run initial events) ≤ 1 ∧
    (0 < pendingSubmissions (run initial events) →
      ∀ es, submitsEnabled (run initial events) (.submit :: es) = false) := by
  obtain ⟨hc, hl, ht⟩ := run_submitInv events initial initial_submitInv h
  cases hd : (run initial events).dom.submitDisabled with
  | false =>
    rw [hd] at hc hl ht
    simp only [Bool.false_eq_true, if_false] at hc
    refine ⟨?_, by omega, ?_⟩
    · constructor
      · intro hpos
        omega
      · intro hload
        rw [hload.1] at hd
        cases hd
    · intro hpos
      omega
  | true =>
    rw [hd] at hc hl ht
    simp only [if_true] at hc
    refine ⟨?_, by omega, ?_⟩
    · constructor
      · intro _
        exact ⟨hd, hl, ht⟩
      · intro _
        omega
    · intro _ es
      simp [submitsEnabled, hd]

theorem single_pending_submission_witness :
    submitsEnabled initial (fillValidData ++ [Event.submit]) = true ∧
    pendingSubmissions (run initial (fillValidData ++ [Event.submit])) ≤ 1 :=
  ⟨by decide, (single_pending_submission _ (by decide)).2.1⟩

/-! ## Dismissing the banner -/

theorem run_cons (s : Sys) (e : Event) (es : List Event) :
    run s (e :: es) = run (step s e) es := rfl

theorem run_singleton (s : Sys) (e : Event) : run s [e] = step s e := rfl

/-- The state after the two submits of `submitTwice`. -/
theorem run_submitTwice :
    run initial submitTwice =
      step { handleSubmit initial with now := (handleSubmit initial).now + 3000 } .submit := by
  unfold submitTwice tick
  rw [run_cons, run_append, run_ticks_idle]
  · rfl
  · decide

/-- C17 fails on the code: the empty form is submitted at time 0 and again at
time 3000. The second call reuses the attached banner element and schedules
its removal for time 8000, but the timer of the first call, due at 5000,
removes that element: at time 5000 the newer message is gone, 2000 ms after it
was shown. -/
theorem stale_timer_clears_newer_message :
    ((run initial submitTwice).now = 3000 ∧
      (run initial submitTwice).dom.banner =
        some (0, js "Please correct the errors above before submitting.") ∧
      (run initial submitTwice).timers =
        [{ due := 5000, action := .removeBanner 0 },
         { due := 8000, action := .removeBanner 0 }]) ∧
    ((run initial (submitTwice ++ List.replicate 2000 tick)).now = 5000 ∧
      (run initial (submitTwice ++ List.replicate 2000 tick)).dom.banner = none ∧
      (run initial (submitTwice ++ List.replicate 2000 tick)).timers =
        [{ due := 8000, action := .removeBanner 0 }]) := by
  have hsplit : List.replicate 2000 tick = List.replicate 1999 tick ++ [tick] := by
    rw [← List.replicate_succ']
  have h2 : run initial (submitTwice ++ List.replicate 2000 tick) =
      step { run initial submitTwice with now := (run initial submitTwice).now + 1999 }
        tick := by
    rw [hsplit, run_append, run_append, run_singleton]
    unfold tick
    rw [run_ticks_idle]
    rw [run_submitTwice]
    decide
  rw [h2, run_submitTwice]
  decide

/-! ## Which submit a success goes back to -/

theorem settleDueAt_append_other (T : Nat) (ts : List Timer) (t : Timer)
    (h : t.action ≠ .settle) :
    (ts ++ [t]).countP (fun t => t.action == .settle && t.due == T) =
      ts.countP (fun t => t.action == .settle && t.due == T) := by
  rw [List.countP_append]
  have : (t.action == TimerAction.settle) = false := by simpa using h
  simp [List.countP_cons, this]

theorem settleDueAt_runTimer (T : Nat) (resolved : Bool) (a : TimerAction) (s : Sys) :
    settleDueAt T (runTimer resolved a s) = settleDueAt T s := by
  cases a with
  | settle =>
    cases resolved with
    | true =>
      simp only [settleDueAt, runTimer, resumeSubmit, if_true, showSuccess, setTimeout]
      exact settleDueAt_append_other T _ _ (by simp)
    | false =>
      obtain ⟨el, n, hs⟩ := showSubmissionError_spec
        (js "There was an error sending your message. Please try again.") s
      simp only [settleDueAt, runTimer, resumeSubmit, Bool.false_eq_true, if_false, hs]
      exact settleDueAt_append_other T _ _ (by simp)
  | resetForm => rfl
  | removeBanner el => rfl

theorem settleDueAt_runTimers (T : Nat) (rnd : Nat → Bool) (ts : List Timer) :
    ∀ (i : Nat) (s : Sys), settleDueAt T (runTimers rnd i ts s) = settleDueAt T s := by
  induction ts with
  | nil =>
    intro i s
    rfl
  | cons t ts ih =>
    intro i s
    simp only [runTimers]
    rw [ih, settleDueAt_runTimer]

/-- An event adds a call settling at `T` only when it is a submit handled at
`T - 2000` on a page that passes `validateAllFields`, and then only one. -/
theorem settleDueAt_step (T : Nat) (s : Sys) (e : Event) :
    settleDueAt T (step s e) ≤ settleDueAt T s + validSubmitsAt T s [e] := by
  cases e with
  | input f v => exact Nat.le_add_right _ _
  | blur f => exact Nat.le_add_right _ _
  | submit =>
    simp only [step, validSubmitsAt, Nat.add_zero]
    by_cases hv : (validateAllFields s.dom).1 = true
    · rw [handleSubmit_of_valid s hv]
      simp only [settleDueAt, setTimeout, List.countP_append, List.countP_cons,
        List.countP_nil, beq_self_eq_true, Bool.true_and, Nat.zero_add, hv, true_and]
      by_cases hT : s.now + 2000 = T
      · simp [hT]
      · simp [hT]
    · have hv0 : (validateAllFields s.dom).1 = false := Bool.eq_false_iff.2 hv
      rw [handleSubmit_of_invalid s hv0]
      obtain ⟨el, n, hs⟩ := showSubmissionError_spec
        (js "Please correct the errors above before submitting.")
        { s with dom := (validateAllFields { s.dom with successVisible := false }).2 }
      rw [hs]
      simp only [settleDueAt]
      rw [settleDueAt_append_other T _ _ (by simp)]
      exact Nat.le_add_right _ _
  | tick rnd =>
    simp only [step]
    rw [settleDueAt_runTimers]
    simp only [settleDueAt]
    exact le_trans (List.Sublist.countP_le _ (List.filter_sublist _)) (Nat.le_add_right _ _)

theorem validSubmitsAt_cons (T : Nat) (s : Sys) (e : Event) (es : List Event) :
    validSubmitsAt T s (e :: es) = validSubmitsAt T s [e] + validSubmitsAt T (step s e) es := by
  simp only [validSubmitsAt, Nat.add_zero]

/-- Along a trace, the calls settling at `T` are at most those pending at the
start plus the validated submits handled at `T - 2000`. -/
theorem settleDueAt_run (T : Nat) (events : List Event) : ∀ s : Sys,
    settleDueAt T (run s events) ≤ settleDueAt T s + validSubmitsAt T s events := by
  induction events with
  | nil =>
    intro s
    exact Nat.le_add_right _ _
  | cons e es ih =>
    intro s
    rw [run_cons, validSubmitsAt_cons]
    have h1 := ih (step s e)
    have h2 := settleDueAt_step T s e
    omega

/-- A counted submit is an event of the trace, handled at `T - 2000` on a page
that passed `validateAllFields`. -/
theorem validSubmitsAt_pos (T : Nat) (events : List Event) : ∀ s : Sys,
    0 < validSubmitsAt T s events →
      ∃ pre post, events = pre ++ Event.submit :: post ∧
        (validateAllFields (run s pre).dom).1 = true ∧ (run s pre).now + 2000 = T := by
  induction events with
  | nil =>
    intro s h
    simp [validSubmitsAt] at h
  | cons e es ih =>
    intro s h
    rw [validSubmitsAt_cons] at h
    by_cases he : 0 < validSubmitsAt T s [e]
    · cases e with
      | submit =>
        simp only [validSubmitsAt, Nat.add_zero] at he
        by_cases hc : (validateAllFields s.dom).1 = true ∧ s.now + 2000 = T
        · exact ⟨[], es, rfl, hc.1, hc.2⟩
        · rw [if_neg hc] at he
          omega
      | input f v => simp [validSubmitsAt] at he
      | blur f => simp [validSubmitsAt] at he
      | tick rnd => simp [validSubmitsAt] at he
    · obtain ⟨pre, post, hev, hv, hT⟩ := ih (step s e) (by omega)
      exact ⟨e :: pre, post, by simp [hev], by rw [run_cons]; exact hv,
        by rw [run_cons]; exact hT⟩

theorem runTimers_not_success (rnd : Nat → Bool) (ts : List Timer) :
    ∀ (i : Nat) (s : Sys), (∀ t ∈ ts, t.action ≠ .settle) → ¬ isSuccess s.dom →
      ¬ isSuccess (runTimers rnd i ts s).dom := by
  induction ts with
  | nil =>
    intro i s _ hs
    exact hs
  | cons t ts ih =>
    intro i s hno hs
    simp only [runTimers]
    apply ih (i + 1) _ (fun u hu => hno u (by simp [hu]))
    have ht := hno t (by simp)
    cases ha : t.action with
    | settle => exact absurd ha ht
    | resetForm =>
      intro hsucc
      have := hsucc.2
      simp only [runTimer] at this
      rw [resetForm_successVisible] at this
      cases this
    | removeBanner el =>
      intro hsucc
      apply hs
      simp only [isSuccess, runTimer] at hsucc
      rw [(removeBanner_visible el s.dom).1, (removeBanner_visible el s.dom).2] at hsucc
      exact hsucc

theorem handleSubmit_successVisible (s : Sys) :
    (handleSubmit s).dom.successVisible = false := by
  by_cases hv : (validateAllFields s.dom).1 = true
  · rw [handleSubmit_of_valid s hv]
    exact (validateAllFields_visible { s.dom with successVisible := false }).2
  · rw [handleSubmit_of_invalid s (Bool.eq_false_iff.2 hv)]
    obtain ⟨-, -, -, hsv⟩ := showSubmissionError_frame
      (js "Please correct the errors above before submitting.")
      { s with dom := (validateAllFields { s.dom with successVisible := false }).2 }
    rw [hsv]
    exact (validateAllFields_visible { s.dom with successVisible := false }).2

/-- The success panel appears only at a clock tick that runs a settle timer. -/
theorem step_enters_success (s : Sys) (e : Event) (h0 : ¬ isSuccess s.dom)
    (h1 : isSuccess (step s e).dom) :
    ∃ rnd, e = .tick rnd ∧
      ∃ t ∈ s.timers, t.action = .settle ∧ t.due ≤ s.now + 1 := by
  cases e with
  | input f v =>
    exfalso
    apply h0
    simp only [step, isSuccess] at h1
    rw [(onInput_visible f v s.dom).1, (onInput_visible f v s.dom).2] at h1
    exact h1
  | blur f =>
    exfalso
    apply h0
    simp only [step, isSuccess] at h1
    rw [(onBlur_visible f s.dom).1, (onBlur_visible f s.dom).2] at h1
    exact h1
  | submit =>
    exfalso
    have := h1.2
    simp only [step] at this
    rw [handleSubmit_successVisible] at this
    cases this
  | tick rnd =>
    refine ⟨rnd, rfl, ?_⟩
    by_contra hno
    simp only [step] at h1
    refine runTimers_not_success rnd _ 0 _ ?_ ?_ h1
    · intro t ht ha
      obtain ⟨hmem, hdue⟩ := List.mem_filter.1 ht
      exact hno ⟨t, hmem, ha, by simpa using hdue⟩
    · exact h0

theorem step_now_le (s : Sys) (e : Event) : s.now ≤ (step s e).now := by
  cases e with
  | input f v => exact le_refl _
  | blur f => exact le_refl _
  | submit =>
    simp only [step]
    by_cases hv : (validateAllFields s.dom).1 = true
    · rw [handleSubmit_of_valid s hv]
      exact le_refl _
    · rw [handleSubmit_of_invalid s (Bool.eq_false_iff.2 hv)]
      rw [(showSubmissionError_frame _ _).1]
  | tick rnd =>
    simp only [step]
    have h := (runTimers_inv (fun _ => True) rnd
      (s.timers.filter (fun t => decide (t.due ≤ s.now + 1))) 0
      { s with now := s.now + 1,
               timers := s.timers.filter (fun t => !decide (t.due ≤ s.now + 1)) }
      (fun _ _ _ => ⟨s.now + 1, le_refl _, trivial⟩) (fun _ _ _ => trivial)
      (fun _ => ⟨s.now + 1, le_refl _, trivial⟩)).1
    rw [h]
    exact Nat.le_succ _

theorem run_now_le (events : List Event) : ∀ s : Sys, s.now ≤ (run s events).now := by
  induction events with
  | nil =>
    intro s
    exact le_refl _
  | cons e es ih =>
    intro s
    rw [run_cons]
    exact le_trans (step_now_le s e) (ih _)

/-- A shown success panel has been shown without interruption since some
clock tick before which it was not. -/
theorem success_entrance (events : List Event) :
    isSuccess (run initial events).dom →
      ∃ pre rnd post, events = pre ++ Event.tick rnd :: post ∧
        ¬ isSuccess (run initial pre).dom ∧
        (∀ post1 post2, post = post1 ++ post2 →
          isSuccess (run initial (pre ++ Event.tick rnd :: post1)).dom) := by
  induction events using List.reverseRecOn with
  | nil =>
    intro h
    have := h.2
    simp [run, initial, initialDom] at this
  | append_singleton l e ih =>
    intro h
    by_cases hl : isSuccess (run initial l).dom
    · obtain ⟨pre, rnd, post, hev, hpre, hcont⟩ := ih hl
      refine ⟨pre, rnd, post ++ [e], by simp [hev], hpre, ?_⟩
      intro post1 post2 hsplit
      rcases List.eq_nil_or_concat post2 with rfl | ⟨q, x, hq⟩
      · rw [List.append_nil] at hsplit
        have hall : pre ++ Event.tick rnd :: post1 = l ++ [e] := by
          rw [← hsplit, hev]
          simp
        rw [hall]
        exact h
      · rw [List.concat_eq_append] at hq
        subst hq
        rw [← List.append_assoc] at hsplit
        have hpost := List.append_inj_left' hsplit rfl
        exact hcont post1 q hpost
    · rw [run_append_singleton] at h
      obtain ⟨rnd, rfl, -⟩ := step_enters_success _ e hl h
      refine ⟨l, rnd, [], rfl, hl, ?_⟩
      intro post1 post2 hsplit
      have h1 : post1 = [] := (List.append_eq_nil.1 hsplit.symm).1
      rw [h1, run_append_singleton]
      exact h

theorem step_tick_now (s : Sys) (rnd : Nat → Bool) :
    (step s (.tick rnd)).now = s.now + 1 := by
  simp only [step]
  exact (runTimers_inv (fun _ => True) rnd
    (s.timers.filter (fun t => decide (t.due ≤ s.now + 1))) 0
    { s with now := s.now + 1,
             timers := s.timers.filter (fun t => !decide (t.due ≤ s.now + 1)) }
    (fun _ _ _ => ⟨s.now + 1, le_refl _, trivial⟩) (fun _ _ _ => trivial)
    (fun _ => ⟨s.now + 1, le_refl _, trivial⟩)).1

theorem settleDueAt_initial (T : Nat) (events : List Event) :
    settleDueAt T (run initial events) ≤ validSubmitsAt T initial events := by
  have h := settleDueAt_run T events initial
  have h0 : settleDueAt T initial = 0 := rfl
  omega

/-- A pending settle timer was set by a submit event of the trace, handled
2000 ms before it is due on a page that passed `validateAllFields`. -/
theorem settle_timer_origin (events : List Event) (u : Timer)
    (hu : u ∈ (run initial events).timers) (ha : u.action = .settle) :
    ValidSubmitAt events u.due := by
  have hpos : 0 < settleDueAt u.due (run initial events) := by
    simp only [settleDueAt]
    rw [List.countP_pos_iff]
    exact ⟨u, hu, by simp [ha]⟩
  exact validSubmitsAt_pos u.due events initial
    (lt_of_lt_of_le hpos (settleDueAt_initial u.due events))

/-- C3: when a trace of input, blur, submit and clock events from the initial
page ends with the form hidden and the success panel shown, the panel has been
shown without interruption since a clock tick that ran a settle timer `t`;
`t` was set by a submit event handled exactly 2000 ms before `t` was due, on a
page for which `validateAllFields` returned true, so that name, email, subject
and message passed their validators on the values present then. No settle
timer has another origin: after every prefix of the trace the settle timers
due at a time `T` are at most as many as the submit events handled at
`T - 2000` on a page that passed validation, and each of them goes back to
such a submit. -/
theorem success_requires_valid_submit (events : List Event)
    (h : isSuccess (run initial events).dom) :
    (∀ pre0 post0, events = pre0 ++ post0 →
      (∀ T, settleDueAt T (run initial pre0) ≤ validSubmitsAt T initial pre0) ∧
      (∀ u ∈ (run initial pre0).timers, u.action = .settle → ValidSubmitAt pre0 u.due)) ∧
    ∃ pre rnd post t,
      events = pre ++ Event.tick rnd :: post ∧
      ¬ isSuccess (run initial pre).dom ∧
      (∀ post1 post2, post = post1 ++ post2 →
        isSuccess (run initial (pre ++ Event.tick rnd :: post1)).dom) ∧
      t ∈ (run initial pre).timers ∧ t.action = .settle ∧
      t.due ≤ (run initial pre).now + 1 ∧
      ∃ pre1 post1, pre = pre1 ++ Event.submit :: post1 ∧
        (validateAllFields (run initial pre1).dom).1 = true ∧
        (∀ f ∈ requiredFields, (validateField f (run initial pre1).dom).1 = true) ∧
        (run initial pre1).now + 2000 = t.due ∧
        (run initial pre1).now + 2000 ≤ (run initial events).now := by
  refine ⟨fun pre0 _ _ => ⟨fun T => settleDueAt_initial T pre0,
    fun u hu ha => settle_timer_origin pre0 u hu ha⟩, ?_⟩
  obtain ⟨pre, rnd, post, hev, hpre, hcont⟩ := success_entrance events h
  have henter : isSuccess (step (run initial pre) (.tick rnd)).dom := by
    have := hcont [] post rfl
    rw [run_append_singleton] at this
    exact this
  obtain ⟨_, -, t, ht, ha, hdue⟩ := step_enters_success _ _ hpre henter
  obtain ⟨pre1, post1, hpre1, hv, hT⟩ := settle_timer_origin pre t ht ha
  refine ⟨pre, rnd, post, t, hev, hpre, hcont, ht, ha, hdue, pre1, post1, hpre1, hv, ?_, hT, ?_⟩
  · have hall := hv
    rw [validateAllFields_fst] at hall
    simp only [Bool.and_eq_true] at hall
    obtain ⟨⟨⟨⟨h1, h2⟩, h3⟩, h4⟩, -⟩ := hall
    intro f hf
    simp only [requiredFields, List.mem_cons, List.mem_singleton, List.not_mem_nil,
      or_false] at hf
    rcases hf with rfl | rfl | rfl | rfl <;> rw [validateField_fst] <;> assumption
  · have hnow : (run initial pre).now + 1 ≤ (run initial events).now := by
      rw [hev, run_append, run_cons, ← step_tick_now (run initial pre) rnd]
      exact run_now_le post _
    omega

theorem success_requires_valid_submit_witness :
    isSuccess (run initial successTrace).dom ∧
    ∃ pre rnd post t,
      successTrace = pre ++ Event.tick rnd :: post ∧
      ¬ isSuccess (run initial pre).dom ∧
      (∀ post1 post2, post = post1 ++ post2 →
        isSuccess (run initial (pre ++ Event.tick rnd :: post1)).dom) ∧
      t ∈ (run initial pre).timers ∧ t.action = .settle ∧
      t.due ≤ (run initial pre).now + 1 ∧
      ∃ pre1 post1, pre = pre1 ++ Event.submit :: post1 ∧
        (validateAllFields (run initial pre1).dom).1 = true ∧
        (∀ f ∈ requiredFields, (validateField f (run initial pre1).dom).1 = true) ∧
        (run initial pre1).now + 2000 = t.due ∧
        (run initial pre1).now + 2000 ≤ (run initial successTrace).now :=
  ⟨fillValidData_succeeds,
    (success_requires_valid_submit successTrace fillValidData_succeeds).2⟩

end ContactForm
